import Mathlib

/-! ng::Matrix: a shallow embedding of `matrix.h` and `matrix.tpp`.

The class template `ng::Matrix<T>` is embedded for an integral scalar type.

Modelling conventions
* `size_type` is carried by `Nat`. `ctor`, `get`, `set` and the members built on
  them take `rows * cols` and the offset `row * cols_ + col` without
  wrap-around; `ctorSized`, `getChecked`, `setChecked` and the `Checked` members
  take them in 64-bit `size_type` (`sizeWrap`) and make every access fallible.
  The two agree whenever the element count fits `size_type` (`FitsSize`).
* `value_type` is the 32-bit `int` of `IMatrix`, carried by `Int`: the result of
  `+`, `-`, `*` and `/` is reduced into the range of `int` by `wrapT`, the
  two's-complement wrap-around (C++ leaves signed overflow undefined; this is
  what the usual targets compute). Whenever the mathematical result is
  representable (`InT`), `wrapT` leaves it as it is.
* The owned buffer `data_` is a `List Int`; the null pointer and a zero-length
  allocation are both the empty list.
* A `throw` is an `Except.error` carrying the condition of the spec's error
  taxonomy; a member function that mutates `*this` returns the new `*this`.
* The unchecked accessor reads with a default and writes with `List.set`; both
  coincide with the C++ behaviour whenever the offset is inside the buffer,
  which the representation invariant `Matrix.WF` guarantees for valid indices.
  The `Checked` variants of the loops are shown to complete with the same
  result under `WF` and `FitsSize`, and to stop where the element count wraps.
-/

namespace ng

/-- The error conditions of the library. `IndexOutOfRange` is the
`std::out_of_range` thrown by `at`; the others are the `std::logic_error`s
thrown by `equal_to`/`add`/`sub` (`ShapeMismatch`), `mul` (`DimensionMismatch`),
`to_identity` (`NotSquare`) and `div` (`DivideByZero`). -/
inductive MatrixError where
  | IndexOutOfRange
  | ShapeMismatch
  | DimensionMismatch
  | NotSquare
  | DivideByZero
  | TypeNotConvertible
  deriving DecidableEq

/-- The data members `rows_`, `cols_`, `data_` of `ng::Matrix<T>`. -/
structure Matrix where
  rows_ : Nat
  cols_ : Nat
  data_ : List Int
  deriving DecidableEq

/-- The loop `for (size_type i = 0; i != n; ++i) body(i)` acting on a state. -/
def forLoop {σ : Type} (n : Nat) (body : Nat → σ → σ) (s : σ) : σ :=
  match n with
  | 0 => s
  | k + 1 => body k (forLoop k body s)

/-- The loop `for (i = start; i != start + remaining; ++i) { body(i); if (brk) break; }`:
the body returns the new state and whether `break` is taken. -/
def forLoopBreak {σ : Type} (body : Nat → σ → σ × Bool) (remaining start : Nat) (s : σ) : σ :=
  match remaining with
  | 0 => s
  | k + 1 =>
    if (body start s).2 then (body start s).1
    else forLoopBreak body k (start + 1) (body start s).1

/-- The range of the scalar type `int`: `INT_MIN <= x <= INT_MAX`. -/
def InT (x : Int) : Prop := -2147483648 ≤ x ∧ x < 2147483648

instance (x : Int) : Decidable (InT x) := by
  unfold InT
  infer_instance

/-- The value an arithmetic result takes in the scalar type `int`: reduction
modulo `2^32` into `[INT_MIN, INT_MAX]`. -/
def wrapT (x : Int) : Int := (x + 2147483648) % 4294967296 - 2147483648

namespace Matrix

/-- The representation invariant: the buffer holds exactly `rows_ * cols_` scalars. -/
def WF (m : Matrix) : Prop := m.data_.length = m.rows_ * m.cols_

instance (m : Matrix) : Decidable m.WF := by
  unfold WF
  infer_instance

/-- The default constructor `Matrix()`: zero dimensions, null buffer. -/
def empty : Matrix := { rows_ := 0, cols_ := 0, data_ := [] }

/-- The constructor `Matrix(rows, cols)`, `new value_type[rows * cols]{}`, for an
element count that fits `size_type`; `ctorSized` is the allocation with the
product taken in `size_type`, and equals this one exactly then. -/
def ctor (rows cols : Nat) : Matrix :=
  { rows_ := rows, cols_ := cols, data_ := List.replicate (rows * cols) 0 }

/-- The getter `rows()`. -/
def rows (m : Matrix) : Nat := m.rows_

/-- The getter `cols()`. -/
def cols (m : Matrix) : Nat := m.cols_

/-- The const `operator()(row, col)`: `data_[row * cols_ + col]`. -/
def get (m : Matrix) (row col : Nat) : Int := m.data_.getD (row * m.cols_ + col) 0

/-- An assignment through the reference returned by `operator()(row, col)`. -/
def set (m : Matrix) (row col : Nat) (v : Int) : Matrix :=
  { m with data_ := m.data_.set (row * m.cols_ + col) v }

/-- The algorithm `std::copy(first, last, out)`: overwrites the first
`src.length` scalars of the destination. -/
def stdCopy (src dst : List Int) : List Int := src ++ dst.drop src.length

/-- The copy constructor `Matrix(const Matrix &other)`. -/
def ctorCopy (other : Matrix) : Matrix :=
  let self := ctor other.rows_ other.cols_
  { self with data_ := stdCopy other.data_ self.data_ }

/-- The move constructor `Matrix(Matrix &&other)`: the new object and the
state left in `other`. -/
def ctorMove (other : Matrix) : Matrix × Matrix :=
  ({ rows_ := other.rows_, cols_ := other.cols_, data_ := other.data_ },
   { rows_ := 0, cols_ := 0, data_ := [] })

/-- The move assignment `self = std::move(other)` between two distinct objects:
the three members are swapped; the result is `(self, other)` afterwards.
(`&other == this` returns early and leaves the one object as it is.) -/
def moveAssign (self other : Matrix) : Matrix × Matrix :=
  ({ rows_ := other.rows_, cols_ := other.cols_, data_ := other.data_ },
   { rows_ := self.rows_, cols_ := self.cols_, data_ := self.data_ })

/-- The member `resize(rows, cols)`. -/
def resize (self : Matrix) (rows cols : Nat) : Matrix :=
  if self.cols_ = cols ∧ self.rows_ = rows then self
  else
    let tmp := ctor rows cols
    let min_cols := min cols self.cols_
    let min_rows := min rows self.rows_
    let tmp := forLoop min_rows (fun row tmp =>
      forLoop min_cols (fun col tmp => tmp.set row col (self.get row col)) tmp) tmp
    (moveAssign self tmp).1

/-- The binary `transform(other, op)`: `std::transform` over `[begin(), end())`
reading `other` from `other.begin()` and writing back from `begin()`. -/
def transform₂ (self other : Matrix) (op : Int → Int → Int) : Matrix :=
  { self with data_ := List.zipWith op self.data_ other.data_ }

/-- The member `mul(const Matrix &rhs)`. -/
def mul (self rhs : Matrix) : Except MatrixError Matrix :=
  if self.cols_ ≠ rhs.rows then .error .DimensionMismatch
  else
    let cols := rhs.cols
    let rows := self.rows_
    let multiplied := ctor rows cols
    let multiplied := forLoop rows (fun row multiplied =>
      forLoop cols (fun col multiplied =>
        forLoop self.cols_ (fun k multiplied =>
          multiplied.set row col (wrapT (self.get row k * rhs.get k col))) multiplied)
        multiplied) multiplied
    .ok (moveAssign self multiplied).1

/-- The member `add(const Matrix &rhs)`. -/
def add (self rhs : Matrix) : Except MatrixError Matrix :=
  if rhs.rows ≠ self.rows_ ∨ rhs.cols ≠ self.cols_ then .error .ShapeMismatch
  else .ok (self.transform₂ rhs (fun lhs rhs => wrapT (lhs + rhs)))

/-- The member `sub(const Matrix &rhs)`. -/
def sub (self rhs : Matrix) : Except MatrixError Matrix :=
  if rhs.rows ≠ self.rows_ ∨ rhs.cols ≠ self.cols_ then .error .ShapeMismatch
  else .ok (self.transform₂ rhs (fun lhs rhs => wrapT (lhs - rhs)))

/-- The member `to_identity()`. -/
def to_identity (self : Matrix) : Except MatrixError Matrix :=
  if self.rows_ ≠ self.cols_ then .error .NotSquare
  else
    .ok (forLoop self.rows_ (fun row m =>
      forLoop self.cols_ (fun col m =>
        m.set row col (if row = col then 1 else 0)) m) self)

/-- The static factory `identity(rows, cols)`. -/
def identity (rows cols : Nat) : Except MatrixError Matrix :=
  (ctor rows cols).to_identity

/-- Modelled from the spec: the constant `MatrixEpsilon<T>::epsilon`, whose
declaration is not among the sources; the spec fixes it as exact (`epsilon = 0`)
for integral scalar types. -/
def epsilon : Int := 0

/-- The member `equal_to(rhs)` for a non-boolean scalar type: `equal` is the
loop state, and the `break` leaves the column loop only. -/
def equal_to (self rhs : Matrix) : Except MatrixError Bool :=
  if rhs.rows ≠ self.rows_ ∨ rhs.cols ≠ self.cols_ then .error .ShapeMismatch
  else
    .ok (forLoop self.rows_ (fun row equal =>
      forLoopBreak (fun col equal =>
        let equal := if |self.get row col - rhs.get row col| > epsilon then false else equal
        (equal, !equal)) self.cols_ 0 equal) true)

/-- The free `operator *(lhs, rhs)`: copy `lhs`, then `result *= rhs`. -/
def opMul (lhs rhs : Matrix) : Except MatrixError Matrix :=
  (ctorCopy lhs).mul rhs

/-- The free `operator +(lhs, rhs)`: copy `lhs`, then `result += rhs`. -/
def opAdd (lhs rhs : Matrix) : Except MatrixError Matrix :=
  (ctorCopy lhs).add rhs

/-- The free `operator -(lhs, rhs)`: copy `lhs`, then `result -= rhs`. -/
def opSub (lhs rhs : Matrix) : Except MatrixError Matrix :=
  (ctorCopy lhs).sub rhs

/-- The free `operator ==(lhs, rhs)`. -/
def opEq (lhs rhs : Matrix) : Except MatrixError Bool :=
  lhs.equal_to rhs

/-- The entry the spec gives for the product, in its words: the standard dot
product `Σ_{k=0}^{cols-1} self(i,k) * rhs(k,j)`, the sum over the shared
dimension. -/
def specDot (self rhs : Matrix) (i j : Nat) : Int :=
  ((List.range self.cols_).map (fun k => self.get i k * rhs.get k j)).sum

end Matrix

/-- The checked accessor `at(row, col)`. -/
def Matrix.at (m : Matrix) (row col : Nat) : Except MatrixError Int :=
  if row ≥ m.rows_ ∨ col ≥ m.cols_ then .error .IndexOutOfRange
  else .ok (m.get row col)

namespace Matrix

/-- The member `generate(op)`: `std::generate` over `[begin(), end())`, for a
producer that holds no state. -/
def generate (self : Matrix) (op : Unit → Int) : Matrix :=
  { self with data_ := self.data_.map (fun _ => op ()) }

/-- The unary `transform(op)`: `std::transform` over `[begin(), end())` writing
back from `begin()`. -/
def transform₁ (self : Matrix) (op : Int → Int) : Matrix :=
  { self with data_ := self.data_.map op }

/-- The member `zero()`. -/
def zero (self : Matrix) : Matrix :=
  self.generate (fun _ => 0)

/-- The member `fill(number)`. -/
def fill (self : Matrix) (number : Int) : Matrix :=
  self.generate (fun _ => number)

/-- The constructor `Matrix(rows, cols, f)`: the zeroed buffer, filled only
when `f != value_type{}`. -/
def ctorFill (rows cols : Nat) (f : Int) : Matrix :=
  let self := ctor rows cols
  if f ≠ 0 then self.fill f else self

/-- The setter `rows(rows)`. -/
def setRows (self : Matrix) (rows : Nat) : Matrix :=
  if self.rows_ = rows then self
  else
    let tmp := ctor rows self.cols_
    let min_rows := min rows self.rows_
    let tmp := forLoop min_rows (fun row tmp =>
      forLoop self.cols_ (fun col tmp => tmp.set row col (self.get row col)) tmp) tmp
    (moveAssign self tmp).1

/-- The setter `cols(cols)`. -/
def setCols (self : Matrix) (cols : Nat) : Matrix :=
  if self.cols_ = cols then self
  else
    let tmp := ctor self.rows_ cols
    let min_cols := min cols self.cols_
    let tmp := forLoop self.rows_ (fun row tmp =>
      forLoop min_cols (fun col tmp => tmp.set row col (self.get row col)) tmp) tmp
    (moveAssign self tmp).1

/-- The member `clear()`. -/
def clear (_self : Matrix) : Matrix :=
  { rows_ := 0, cols_ := 0, data_ := [] }

/-- The member `mul(const value_type &number)`. -/
def mulNumber (self : Matrix) (number : Int) : Matrix :=
  self.transform₁ (fun item => wrapT (item * number))

/-- The member `add(const value_type &number)`. -/
def addNumber (self : Matrix) (number : Int) : Matrix :=
  self.transform₁ (fun item => wrapT (item + number))

/-- The member `sub(const value_type &number)`. -/
def subNumber (self : Matrix) (number : Int) : Matrix :=
  self.transform₁ (fun item => wrapT (item - number))

/-- The member `div(number)` for an integral scalar type, where
`std::is_integral_v<T>` holds; `/` on C++ integers truncates toward zero.
`INT_MIN / -1` is not representable and undefined in C++ (it may trap); the
embedding gives the wrapped quotient there. -/
def div (self : Matrix) (number : Int) : Except MatrixError Matrix :=
  if number = 0 then .error .DivideByZero
  else .ok (self.transform₁ (fun item => wrapT (item.tdiv number)))

/-- The const member `transpose()`. -/
def transpose (self : Matrix) : Matrix :=
  let transposed := ctor self.cols_ self.rows_
  forLoop self.rows_ (fun row transposed =>
    forLoop self.cols_ (fun col transposed =>
      transposed.set col row (self.get row col)) transposed) transposed

/-- The const member `convert_to<ConvertType>()`; `conv` is the conversion of a
scalar of `T` to `ConvertType` made by the assignment inside `std::copy`. -/
def convert_to (conv : Int → Int) (self : Matrix) : Matrix :=
  let convert := ctor self.rows_ self.cols_
  { convert with data_ := stdCopy (self.data_.map conv) convert.data_ }

/-- The const member `convert_to_vector()`. -/
def convert_to_vector (self : Matrix) : List Int :=
  let v := List.replicate (self.rows_ * self.cols_) 0
  stdCopy self.data_ v

/-- The const member `convert_to_matrix_vector()`; `v[row][col] = x` replaces
row `row` of `v` by that row with its entry `col` set. -/
def convert_to_matrix_vector (self : Matrix) : List (List Int) :=
  let v := List.replicate self.rows_ (List.replicate self.cols_ 0)
  forLoop self.rows_ (fun row v =>
    forLoop self.cols_ (fun col v =>
      v.set row ((v.getD row []).set col (self.get row col))) v) v

end Matrix

/-- The outcome of a member call: the value returned or the exception thrown,
and the receiver as the call leaves it. -/
structure Outcome (α : Type) where
  result : Except MatrixError α
  self : Matrix

/-- A statement sequence of a member function, run on the receiver. -/
def Stmt (α : Type) : Type := Matrix → Outcome α

namespace Stmt

/-- The statement `throw e`: control leaves with the receiver as it stands. -/
def throw {α : Type} (e : MatrixError) : Stmt α :=
  fun self => { result := .error e, self := self }

/-- A statement that writes the receiver. -/
def write (f : Matrix → Matrix) : Stmt Unit :=
  fun self => { result := .ok (), self := f self }

/-- The guard `if (cond) throw e;`. -/
def guard (cond : Matrix → Bool) (e : MatrixError) : Stmt Unit :=
  fun self => if cond self then throw e self else { result := .ok (), self := self }

/-- Sequencing `s; t`: `t` runs on the receiver left by `s`, unless `s` threw. -/
def seq {α : Type} (s : Stmt Unit) (t : Stmt α) : Stmt α :=
  fun self =>
    match (s self).result with
    | .ok _ => t (s self).self
    | .error e => { result := .error e, self := (s self).self }

/-- A call of a member that only reads the receiver (a `const` member, or the
accessor `at`, which hands out a reference and writes nothing itself). -/
def readOnly {α : Type} (f : Matrix → Except MatrixError α) : Stmt α :=
  fun self => { result := f self, self := self }

end Stmt

namespace Matrix

/-- The call `self.at(row, col)`. -/
def atCall (row col : Nat) : Stmt Int :=
  Stmt.readOnly (fun self => self.at row col)

/-- The call `self.equal_to(rhs)` of the const member. -/
def equal_toCall (rhs : Matrix) : Stmt Bool :=
  Stmt.readOnly (fun self => self.equal_to rhs)

/-- The call `self.transpose()` of the const member. -/
def transposeCall : Stmt Matrix :=
  Stmt.readOnly (fun self => .ok self.transpose)

/-- The call `self.add(rhs)`, statement by statement. -/
def addCall (rhs : Matrix) : Stmt Unit :=
  Stmt.seq
    (Stmt.guard (fun self => decide (rhs.rows ≠ self.rows_ ∨ rhs.cols ≠ self.cols_))
      .ShapeMismatch)
    (Stmt.write (fun self => self.transform₂ rhs (fun lhs rhs => wrapT (lhs + rhs))))

/-- The call `self.sub(rhs)`, statement by statement. -/
def subCall (rhs : Matrix) : Stmt Unit :=
  Stmt.seq
    (Stmt.guard (fun self => decide (rhs.rows ≠ self.rows_ ∨ rhs.cols ≠ self.cols_))
      .ShapeMismatch)
    (Stmt.write (fun self => self.transform₂ rhs (fun lhs rhs => wrapT (lhs - rhs))))

/-- The call `self.mul(rhs)`, statement by statement. -/
def mulCall (rhs : Matrix) : Stmt Unit :=
  Stmt.seq
    (Stmt.guard (fun self => decide (self.cols_ ≠ rhs.rows)) .DimensionMismatch)
    (Stmt.write (fun self =>
      let cols := rhs.cols
      let rows := self.rows_
      let multiplied := ctor rows cols
      let multiplied := forLoop rows (fun row multiplied =>
        forLoop cols (fun col multiplied =>
          forLoop self.cols_ (fun k multiplied =>
            multiplied.set row col (wrapT (self.get row k * rhs.get k col))) multiplied)
          multiplied) multiplied
      (moveAssign self multiplied).1))

/-- The call `self.div(number)`, statement by statement. -/
def divCall (number : Int) : Stmt Unit :=
  Stmt.seq
    (Stmt.guard (fun _ => decide (number = 0)) .DivideByZero)
    (Stmt.write (fun self => self.transform₁ (fun item => wrapT (item.tdiv number))))

/-- The call `self.to_identity()`, statement by statement. -/
def to_identityCall : Stmt Unit :=
  Stmt.seq
    (Stmt.guard (fun self => decide (self.rows_ ≠ self.cols_)) .NotSquare)
    (Stmt.write (fun self =>
      forLoop self.rows_ (fun row m =>
        forLoop self.cols_ (fun col m =>
          m.set row col (if row = col then 1 else 0)) m) self))

end Matrix

/-- The loop `for (size_type i = 0; i != n; ++i) body(i)` whose body may make an
access outside a buffer: `none` as soon as one iteration does. -/
def forLoopM {σ : Type} (n : Nat) (body : Nat → σ → Option σ) (s : σ) : Option σ :=
  match n with
  | 0 => some s
  | k + 1 => (forLoopM k body s).bind (body k)

namespace Matrix

/-- The value of a `size_type` expression: 64-bit unsigned arithmetic wraps. -/
def sizeWrap (n : Nat) : Nat := n % 18446744073709551616

/-- The element count `rows * cols` is representable in `size_type`. -/
def FitsSize (rows cols : Nat) : Prop := rows * cols < 18446744073709551616

instance (rows cols : Nat) : Decidable (FitsSize rows cols) := by
  unfold FitsSize
  infer_instance

/-- The constructor `Matrix(rows, cols)` as the machine runs it:
`new value_type[rows * cols]{}` with the product taken in `size_type`. -/
def ctorSized (rows cols : Nat) : Matrix :=
  { rows_ := rows, cols_ := cols, data_ := List.replicate (sizeWrap (rows * cols)) 0 }

/-- A read through `operator()(row, col)` with the offset taken in `size_type`
and the bound of the buffer checked: `none` stands for an access outside
`data_`. -/
def getChecked (m : Matrix) (row col : Nat) : Option Int :=
  m.data_[sizeWrap (row * m.cols_ + col)]?

/-- A write through `operator()(row, col)` with the offset taken in `size_type`
and the bound of the buffer checked: `none` stands for an access outside
`data_`. -/
def setChecked (m : Matrix) (row col : Nat) (v : Int) : Option Matrix :=
  if sizeWrap (row * m.cols_ + col) < m.data_.length then
    some { m with data_ := m.data_.set (sizeWrap (row * m.cols_ + col)) v }
  else none

/-- The constructor `Matrix(rows, cols, f)` as the machine runs it. -/
def ctorFillSized (rows cols : Nat) (f : Int) : Matrix :=
  let self := ctorSized rows cols
  if f ≠ 0 then self.fill f else self

/-- The copy constructor as the machine runs it. -/
def ctorCopySized (other : Matrix) : Matrix :=
  let self := ctorSized other.rows_ other.cols_
  { self with data_ := stdCopy other.data_ self.data_ }

/-- The const member `convert_to<ConvertType>()` as the machine runs it. -/
def convert_toSized (conv : Int → Int) (self : Matrix) : Matrix :=
  let convert := ctorSized self.rows_ self.cols_
  { convert with data_ := stdCopy (self.data_.map conv) convert.data_ }

/-- The setter `rows(rows)` as the machine runs it, with every access of its loops checked. -/
def setRowsChecked (self : Matrix) (rows : Nat) : Option Matrix :=
  if self.rows_ = rows then some self
  else
    let tmp := ctorSized rows self.cols_
    let min_rows := min rows self.rows_
    (forLoopM min_rows (fun row tmp =>
      forLoopM self.cols_ (fun col tmp =>
        (self.getChecked row col).bind (fun v => tmp.setChecked row col v)) tmp) tmp).map
      (fun tmp => (moveAssign self tmp).1)

/-- The setter `cols(cols)` as the machine runs it, with every access of its loops checked. -/
def setColsChecked (self : Matrix) (cols : Nat) : Option Matrix :=
  if self.cols_ = cols then some self
  else
    let tmp := ctorSized self.rows_ cols
    let min_cols := min cols self.cols_
    (forLoopM self.rows_ (fun row tmp =>
      forLoopM min_cols (fun col tmp =>
        (self.getChecked row col).bind (fun v => tmp.setChecked row col v)) tmp) tmp).map
      (fun tmp => (moveAssign self tmp).1)

/-- The member `resize(rows, cols)` as the machine runs it, with every access of its loops checked. -/
def resizeChecked (self : Matrix) (rows cols : Nat) : Option Matrix :=
  if self.cols_ = cols ∧ self.rows_ = rows then some self
  else
    let tmp := ctorSized rows cols
    let min_cols := min cols self.cols_
    let min_rows := min rows self.rows_
    (forLoopM min_rows (fun row tmp =>
      forLoopM min_cols (fun col tmp =>
        (self.getChecked row col).bind (fun v => tmp.setChecked row col v)) tmp) tmp).map
      (fun tmp => (moveAssign self tmp).1)

/-- The member `mul(const Matrix &rhs)` as the machine runs it, with every access of its loops checked. -/
def mulChecked (self rhs : Matrix) : Option (Except MatrixError Matrix) :=
  if self.cols_ ≠ rhs.rows then some (.error .DimensionMismatch)
  else
    let cols := rhs.cols
    let rows := self.rows_
    let multiplied := ctorSized rows cols
    (forLoopM rows (fun row multiplied =>
      forLoopM cols (fun col multiplied =>
        forLoopM self.cols_ (fun k multiplied =>
          (self.getChecked row k).bind (fun x =>
            (rhs.getChecked k col).bind (fun y =>
              multiplied.setChecked row col (wrapT (x * y))))) multiplied)
        multiplied) multiplied).map
      (fun multiplied => .ok (moveAssign self multiplied).1)

/-- The member `transpose()` as the machine runs it, with every access of its loops checked. -/
def transposeChecked (self : Matrix) : Option Matrix :=
  let transposed := ctorSized self.cols_ self.rows_
  forLoopM self.rows_ (fun row transposed =>
    forLoopM self.cols_ (fun col transposed =>
      (self.getChecked row col).bind (fun v => transposed.setChecked col row v)) transposed)
    transposed

/-- The member `to_identity()` as the machine runs it, with every access of its loops checked. -/
def to_identityChecked (self : Matrix) : Option (Except MatrixError Matrix) :=
  if self.rows_ ≠ self.cols_ then some (.error .NotSquare)
  else
    (forLoopM self.rows_ (fun row m =>
      forLoopM self.cols_ (fun col m =>
        m.setChecked row col (if row = col then 1 else 0)) m) self).map .ok

/-- The static factory `identity(rows, cols)` as the machine runs it. -/
def identityChecked (rows cols : Nat) : Option (Except MatrixError Matrix) :=
  (ctorSized rows cols).to_identityChecked

end Matrix

/-! ## Loops and row-major addressing -/

/-- A result that is representable in `int` is not changed by the reduction. -/
theorem wrapT_of_InT {x : Int} (h : InT x) : wrapT x = x := by
  unfold InT at h
  unfold wrapT
  rw [Int.emod_eq_of_lt (by omega) (by omega)]
  omega

/-- The reduction always lands in the range of `int`. -/
theorem InT_wrapT (x : Int) : InT (wrapT x) := by
  unfold InT wrapT
  omega

theorem forLoop_succ {σ : Type} (n : Nat) (body : Nat → σ → σ) (s : σ) :
    forLoop (n + 1) body s = body n (forLoop n body s) := rfl

theorem forLoop_id {σ : Type} (n : Nat) (s : σ) : forLoop n (fun _ t => t) s = s := by
  induction n with
  | zero => rfl
  | succ k ih => simpa [forLoop_succ] using ih

/-- The loop rule: an invariant that holds before the loop and is carried by
every iteration holds after it. -/
theorem forLoop_inv {σ : Type} (P : Nat → σ → Prop) (body : Nat → σ → σ) (s : σ) (n : Nat)
    (h0 : P 0 s) (hstep : ∀ k t, k < n → P k t → P (k + 1) (body k t)) :
    P n (forLoop n body s) := by
  induction n with
  | zero => exact h0
  | succ k ih =>
    rw [forLoop_succ]
    exact hstep k _ (Nat.lt_succ_self k)
      (ih (fun j t hj hP => hstep j t (Nat.lt_succ_of_lt hj) hP))

theorem offset_lt {R C r c : Nat} (hr : r < R) (hc : c < C) : r * C + c < R * C := by
  have h1 : (r + 1) * C ≤ R * C := Nat.mul_le_mul_right C hr
  have h2 : (r + 1) * C = r * C + C := by ring
  omega

theorem offset_inj {C r c r' c' : Nat} (hc : c < C) (hc' : c' < C)
    (h : r * C + c = r' * C + c') : r = r' ∧ c = c' := by
  have hpos : 0 < C := by omega
  have hd : (r * C + c) / C = r := by
    rw [Nat.add_comm, Nat.add_mul_div_right _ _ hpos, Nat.div_eq_of_lt hc, Nat.zero_add]
  have hd' : (r' * C + c') / C = r' := by
    rw [Nat.add_comm, Nat.add_mul_div_right _ _ hpos, Nat.div_eq_of_lt hc', Nat.zero_add]
  have hr : r = r' := by rw [← hd, ← hd', h]
  subst hr
  exact ⟨rfl, by omega⟩

/-- The inner loop of a nest that writes cell `(a₀, b)` for every `b < Cb`,
over any state with a cell reader `rd` and a cell writer `wr`. -/
theorem innerLoop_spec {σ : Type} (Inv : σ → Prop) (rd : σ → Nat → Nat → Int)
    (wr : Nat → Nat → Int → σ → σ) (Ra Cb : Nat)
    (hInv : ∀ s a b v, Inv s → a < Ra → b < Cb → Inv (wr a b v s))
    (hself : ∀ s a b v, Inv s → a < Ra → b < Cb → rd (wr a b v s) a b = v)
    (hne : ∀ s a b a' b' v, Inv s → a < Ra → b < Cb → a' < Ra → b' < Cb →
      ¬ (a' = a ∧ b' = b) → rd (wr a b v s) a' b' = rd s a' b')
    (g : Nat → Int) (a₀ : Nat) (ha₀ : a₀ < Ra) (s : σ) (hs : Inv s) :
    Inv (forLoop Cb (fun b t => wr a₀ b (g b) t) s) ∧
    ∀ a b, a < Ra → b < Cb →
      rd (forLoop Cb (fun b t => wr a₀ b (g b) t) s) a b
        = if a = a₀ then g b else rd s a b := by
  have key := forLoop_inv
    (fun j t => Inv t ∧ ∀ a b, a < Ra → b < Cb →
      rd t a b = if a = a₀ ∧ b < j then g b else rd s a b)
    (fun b t => wr a₀ b (g b) t) s Cb ⟨hs, fun a b _ _ => by simp⟩ (by
      rintro j t hj ⟨hI, hget⟩
      refine ⟨hInv t a₀ j _ hI ha₀ hj, ?_⟩
      intro a b ha hb
      by_cases hab : a = a₀ ∧ b = j
      · obtain ⟨rfl, rfl⟩ := hab
        rw [hself t a b _ hI ha hb]
        simp
      · rw [hne t a₀ j a b _ hI ha₀ hj ha hb hab, hget a b ha hb]
        by_cases hi : a = a₀
        · have hbj : b ≠ j := fun hbj => hab ⟨hi, hbj⟩
          have : (b < j + 1) ↔ (b < j) := by omega
          simp [hi, this]
        · simp [hi])
  refine ⟨key.1, ?_⟩
  intro a b ha hb
  rw [key.2 a b ha hb]
  simp [hb]

/-- A loop nest that writes cell `(a, b)` with `g a b` for every `a < Ra` and
`b < Cb` leaves `g` in every cell and keeps the invariant of the state. -/
theorem nestLoop_spec {σ : Type} (Inv : σ → Prop) (rd : σ → Nat → Nat → Int)
    (wr : Nat → Nat → Int → σ → σ) (Ra Cb : Nat)
    (hInv : ∀ s a b v, Inv s → a < Ra → b < Cb → Inv (wr a b v s))
    (hself : ∀ s a b v, Inv s → a < Ra → b < Cb → rd (wr a b v s) a b = v)
    (hne : ∀ s a b a' b' v, Inv s → a < Ra → b < Cb → a' < Ra → b' < Cb →
      ¬ (a' = a ∧ b' = b) → rd (wr a b v s) a' b' = rd s a' b')
    (g : Nat → Nat → Int) (s₀ : σ) (h₀ : Inv s₀) :
    Inv (forLoop Ra (fun a s => forLoop Cb (fun b t => wr a b (g a b) t) s) s₀) ∧
    ∀ a b, a < Ra → b < Cb →
      rd (forLoop Ra (fun a s => forLoop Cb (fun b t => wr a b (g a b) t) s) s₀) a b
        = g a b := by
  have key := forLoop_inv
    (fun k t => Inv t ∧ ∀ a b, a < Ra → b < Cb →
      rd t a b = if a < k then g a b else rd s₀ a b)
    (fun a s => forLoop Cb (fun b t => wr a b (g a b) t) s) s₀ Ra
    ⟨h₀, fun a b _ _ => by simp⟩ (by
      rintro k t hk ⟨hI, hget⟩
      obtain ⟨hI', hget'⟩ := innerLoop_spec Inv rd wr Ra Cb hInv hself hne (g k) k hk t hI
      refine ⟨hI', ?_⟩
      intro a b ha hb
      rw [hget' a b ha hb, hget a b ha hb]
      by_cases hak : a = k
      · simp [hak]
      · have : (a < k + 1) ↔ (a < k) := by omega
        simp [hak, this])
  refine ⟨key.1, ?_⟩
  intro a b ha hb
  rw [key.2 a b ha hb]
  simp [ha]

namespace Matrix

@[simp] theorem set_rows_ (m : Matrix) (r c : Nat) (v : Int) : (m.set r c v).rows_ = m.rows_ := rfl

@[simp] theorem set_cols_ (m : Matrix) (r c : Nat) (v : Int) : (m.set r c v).cols_ = m.cols_ := rfl

theorem set_WF {m : Matrix} (h : m.WF) (r c : Nat) (v : Int) : (m.set r c v).WF := by
  unfold WF at *
  simpa [set] using h

theorem ctor_WF (rows cols : Nat) : (ctor rows cols).WF := by
  simp [WF, ctor]

theorem get_ctor (rows cols i j : Nat) : (ctor rows cols).get i j = 0 := by
  simp only [get, ctor, List.getD_eq_getElem?_getD, List.getElem?_replicate]
  split <;> rfl

theorem get_set_self {m : Matrix} (h : m.WF) {r c : Nat} (hr : r < m.rows_) (hc : c < m.cols_)
    (v : Int) : (m.set r c v).get r c = v := by
  have hlt : r * m.cols_ + c < m.data_.length := by
    rw [h]
    exact offset_lt hr hc
  simp [get, set, List.getElem?_set_self hlt]

theorem get_set_of_ne {m : Matrix} {r c r' c' : Nat} (hc : c < m.cols_) (hc' : c' < m.cols_)
    (hne : ¬ (r' = r ∧ c' = c)) (v : Int) : (m.set r c v).get r' c' = m.get r' c' := by
  have hoff : r * m.cols_ + c ≠ r' * m.cols_ + c' := by
    intro heq
    have := offset_inj hc hc' heq
    exact hne ⟨this.1.symm, this.2.symm⟩
  simp [get, set, List.getElem?_set_ne hoff]

theorem set_set (m : Matrix) (r c : Nat) (v w : Int) : (m.set r c v).set r c w = m.set r c w := by
  simp [set, List.set_set]

/-- The column loop `for col < C: t(row, col) = g(col)` on a well-formed matrix. -/
theorem rowLoop_spec {m : Matrix} (h : m.WF) (row C : Nat) (hrow : row < m.rows_)
    (hC : C ≤ m.cols_) (g : Nat → Int) :
    (forLoop C (fun col t => t.set row col (g col)) m).WF ∧
    (forLoop C (fun col t => t.set row col (g col)) m).rows_ = m.rows_ ∧
    (forLoop C (fun col t => t.set row col (g col)) m).cols_ = m.cols_ ∧
    ∀ i j, j < m.cols_ →
      (forLoop C (fun col t => t.set row col (g col)) m).get i j
        = if i = row ∧ j < C then g j else m.get i j := by
  refine forLoop_inv
    (fun k t => t.WF ∧ t.rows_ = m.rows_ ∧ t.cols_ = m.cols_ ∧
      ∀ i j, j < m.cols_ → t.get i j = if i = row ∧ j < k then g j else m.get i j)
    _ m C ⟨h, rfl, rfl, fun i j _ => by simp⟩ ?_
  rintro k t hk ⟨hW, hr, hc, hget⟩
  refine ⟨set_WF hW _ _ _, by simpa using hr, by simpa using hc, ?_⟩
  intro i j hj
  by_cases hij : i = row ∧ j = k
  · obtain ⟨rfl, rfl⟩ := hij
    rw [get_set_self hW (by omega) (by omega)]
    simp
  · rw [get_set_of_ne (by omega) (by omega) hij, hget i j hj]
    by_cases hi : i = row
    · have hjk : j ≠ k := fun hjk => hij ⟨hi, hjk⟩
      have : (j < k + 1) ↔ (j < k) := by omega
      simp [hi, this]
    · simp [hi]

/-- The nested write loop `for row < R, for col < C: t(row, col) = g(row, col)`
on a well-formed matrix: the rectangle `R x C` holds `g`, every other cell is
untouched, and the shape and the invariant are kept. -/
theorem writeLoop_spec {m : Matrix} (h : m.WF) (R C : Nat) (hR : R ≤ m.rows_)
    (hC : C ≤ m.cols_) (g : Nat → Nat → Int) :
    (forLoop R (fun row t => forLoop C (fun col t => t.set row col (g row col)) t) m).WF ∧
    (forLoop R (fun row t => forLoop C (fun col t => t.set row col (g row col)) t) m).rows_
      = m.rows_ ∧
    (forLoop R (fun row t => forLoop C (fun col t => t.set row col (g row col)) t) m).cols_
      = m.cols_ ∧
    ∀ i j, j < m.cols_ →
      (forLoop R (fun row t => forLoop C (fun col t => t.set row col (g row col)) t) m).get i j
        = if i < R ∧ j < C then g i j else m.get i j := by
  refine forLoop_inv
    (fun k t => t.WF ∧ t.rows_ = m.rows_ ∧ t.cols_ = m.cols_ ∧
      ∀ i j, j < m.cols_ → t.get i j = if i < k ∧ j < C then g i j else m.get i j)
    _ m R ⟨h, rfl, rfl, fun i j _ => by simp⟩ ?_
  rintro k t hk ⟨hW, hr, hc, hget⟩
  obtain ⟨hW', hr', hc', hget'⟩ :=
    rowLoop_spec hW k C (by omega) (by omega) (g k)
  refine ⟨hW', hr'.trans hr, hc'.trans hc, ?_⟩
  intro i j hj
  rw [hget' i j (by omega), hget i j hj]
  by_cases hi : i = k
  · subst hi
    by_cases hjC : j < C <;> simp [hjC]
  · have : (i < k + 1) ↔ (i < k) := by omega
    simp [hi, this]

/-- The innermost loop of `mul` assigns the cell once per `k`, so only the last
assignment survives. -/
theorem kLoop_eq (m : Matrix) (row col K : Nat) (h : Nat → Int) :
    forLoop K (fun k t => t.set row col (h k)) m
      = if K = 0 then m else m.set row col (h (K - 1)) := by
  induction K with
  | zero => rfl
  | succ k ih =>
    rw [forLoop_succ, ih]
    by_cases hk : k = 0
    · simp [hk]
    · simp [hk, set_set]

theorem ctorCopy_eq {m : Matrix} (h : m.WF) : ctorCopy m = m := by
  unfold WF at h
  cases m with
  | mk r c d =>
    simp only at h
    simp [ctorCopy, ctor, stdCopy, h]

/-- With agreeing inner dimensions `mul` does not throw and returns the buffer
built by its loop nest. -/
theorem mul_ok (A B : Matrix) (h : A.cols_ = B.rows_) :
    A.mul B = .ok (forLoop A.rows_ (fun row t =>
      forLoop B.cols_ (fun col t =>
        forLoop A.cols_ (fun k t => t.set row col (wrapT (A.get row k * B.get k col))) t) t)
      (ctor A.rows_ B.cols_)) := by
  unfold mul
  rw [if_neg (by simpa [rows] using h)]
  rfl

/-- What `mul` returns when the inner dimensions agree: the shape, the
invariant, and the value left in every cell by the loop nest. -/
theorem mul_result (A B : Matrix) (h : A.cols_ = B.rows_) :
    ∃ M, A.mul B = .ok M ∧ M.WF ∧ M.rows_ = A.rows_ ∧ M.cols_ = B.cols_ ∧
      ∀ i j, i < A.rows_ → j < B.cols_ →
        M.get i j = if A.cols_ = 0 then 0
                    else wrapT (A.get i (A.cols_ - 1) * B.get (A.cols_ - 1) j) := by
  refine ⟨_, mul_ok A B h, ?_⟩
  by_cases hK : A.cols_ = 0
  · simp only [kLoop_eq, hK, if_true, forLoop_id]
    exact ⟨ctor_WF _ _, rfl, rfl, fun i j _ _ => get_ctor _ _ _ _⟩
  · simp only [kLoop_eq, hK, if_false]
    obtain ⟨hW, hr, hc, hget⟩ := writeLoop_spec (ctor_WF A.rows_ B.cols_)
      A.rows_ B.cols_ (Nat.le_refl _) (Nat.le_refl _)
      (fun row col => wrapT (A.get row (A.cols_ - 1) * B.get (A.cols_ - 1) col))
    refine ⟨hW, hr, hc, ?_⟩
    intro i j hi hj
    have := hget i j hj
    simpa only [hi, hj, and_self, if_true] using this

/-- When the target shape differs, `resize` returns the zeroed buffer of the
target shape after its copy loop. -/
theorem resize_ok (M : Matrix) (r c : Nat) (h : ¬ (M.cols_ = c ∧ M.rows_ = r)) :
    M.resize r c = forLoop (min r M.rows_) (fun row t =>
      forLoop (min c M.cols_) (fun col t => t.set row col (M.get row col)) t) (ctor r c) := by
  unfold resize
  rw [if_neg h]
  rfl

/-- A cell of the binary `transform` of two well-formed matrices of one shape. -/
theorem get_transform₂ {A B : Matrix} (hA : A.WF) (hB : B.WF) (hr : A.rows_ = B.rows_)
    (hc : A.cols_ = B.cols_) (op : Int → Int → Int) {i j : Nat} (hi : i < A.rows_)
    (hj : j < A.cols_) :
    (A.transform₂ B op).get i j = op (A.get i j) (B.get i j) := by
  have hoff : i * A.cols_ + j < A.rows_ * A.cols_ := offset_lt hi hj
  have hlA : i * A.cols_ + j < A.data_.length := by rw [hA]; exact hoff
  have hlB : i * A.cols_ + j < B.data_.length := by rw [hB, ← hr, ← hc]; exact hoff
  simp only [get, transform₂, List.getD_eq_getElem?_getD, List.getElem?_zipWith, ← hc,
    List.getElem?_eq_getElem hlA, List.getElem?_eq_getElem hlB]
  rfl

/-- The column loop of `equal_to`, started at column `start` with `n` columns
to go: it ends with `equal` set exactly when `equal` was set on entry and the
scanned cells of the row agree. -/
theorem equalRow_spec (A B : Matrix) (row n start : Nat) (eq : Bool) :
    forLoopBreak (fun col equal =>
        let equal := if |A.get row col - B.get row col| > epsilon then false else equal
        (equal, !equal)) n start eq = true
      ↔ (eq = true ∧ ∀ j, start ≤ j → j < start + n → A.get row j = B.get row j) := by
  induction n generalizing start eq with
  | zero =>
    simp only [forLoopBreak]
    constructor
    · intro h
      exact ⟨h, fun j h1 h2 => absurd h2 (by omega)⟩
    · exact fun h => h.1
  | succ k ih =>
    rw [forLoopBreak]
    by_cases hcell : A.get row start = B.get row start
    · have h0 : ¬ (|A.get row start - B.get row start| > epsilon) := by
        simp [epsilon, hcell]
      simp only [h0, if_false]
      cases eq with
      | false => simp
      | true =>
        simp only [Bool.not_true, Bool.false_eq_true, if_false, true_and]
        rw [ih]
        simp only [true_and]
        constructor
        · intro h j h1 h2
          by_cases hj : j = start
          · rw [hj]; exact hcell
          · exact h j (by omega) (by omega)
        · intro h j h1 h2
          exact h j (by omega) (by omega)
    · have h1 : |A.get row start - B.get row start| > epsilon := by
        simp only [epsilon, gt_iff_lt, abs_pos]
        exact sub_ne_zero.mpr hcell
      simp only [h1, if_true, Bool.not_false, Bool.false_eq_true, false_iff, not_and]
      intro _ h
      exact hcell (h start (Nat.le_refl _) (by omega))

/-- With agreeing shapes `equal_to` does not throw and returns the flag left
by its scan. -/
theorem equal_to_ok (A B : Matrix) (hr : A.rows_ = B.rows_) (hc : A.cols_ = B.cols_) :
    A.equal_to B = .ok (forLoop A.rows_ (fun row equal =>
      forLoopBreak (fun col equal =>
        let equal := if |A.get row col - B.get row col| > epsilon then false else equal
        (equal, !equal)) A.cols_ 0 equal) true) := by
  unfold equal_to
  rw [if_neg (by simp [rows, cols, hr, hc])]

/-- The scan of `equal_to` over `R` rows leaves `equal` set exactly when all
cells of those rows agree. -/
theorem equalScan_spec (A B : Matrix) (R : Nat) :
    forLoop R (fun row equal =>
      forLoopBreak (fun col equal =>
        let equal := if |A.get row col - B.get row col| > epsilon then false else equal
        (equal, !equal)) A.cols_ 0 equal) true = true
      ↔ ∀ i j, i < R → j < A.cols_ → A.get i j = B.get i j := by
  induction R with
  | zero =>
    simp only [forLoop]
    exact ⟨fun _ i j hi _ => absurd hi (by omega), fun _ => trivial⟩
  | succ k ih =>
    rw [forLoop_succ, equalRow_spec, ih]
    constructor
    · rintro ⟨hprev, hrow⟩ i j hi hj
      by_cases hik : i = k
      · rw [hik]; exact hrow j (Nat.zero_le _) (by omega)
      · exact hprev i j (by omega) hj
    · intro h
      exact ⟨fun i j hi hj => h i j (by omega) hj,
        fun j _ hj => h k j (Nat.lt_succ_self k) (by omega)⟩

/-- On a square matrix `to_identity` does not throw and returns the buffer
left by its loop nest. -/
theorem to_identity_ok (M : Matrix) (h : M.rows_ = M.cols_) :
    M.to_identity = .ok (forLoop M.rows_ (fun row m =>
      forLoop M.cols_ (fun col m => m.set row col (if row = col then 1 else 0)) m) M) := by
  unfold to_identity
  rw [if_neg (by simpa using h)]

/-- Two well-formed matrices of one shape that agree in every cell are equal. -/
theorem ext_get {A B : Matrix} (hA : A.WF) (hB : B.WF) (hr : A.rows_ = B.rows_)
    (hc : A.cols_ = B.cols_)
    (h : ∀ i j, i < A.rows_ → j < A.cols_ → A.get i j = B.get i j) : A = B := by
  cases A with
  | mk r c d =>
    cases B with
    | mk r' c' d' =>
      simp only at hr hc
      subst hr
      subst hc
      unfold WF at hA hB
      simp only at hA hB
      have hd : d = d' := by
        apply List.ext_getElem (by rw [hA, hB])
        intro k hk hk'
        have hk2 : k < r * c := by rw [← hA]; exact hk
        have hcpos : 0 < c := by
          rcases Nat.eq_zero_or_pos c with h0 | h0
          · rw [h0] at hk2; simp at hk2
          · exact h0
        have hdiv : k / c < r := Nat.div_lt_of_lt_mul (by rw [Nat.mul_comm]; exact hk2)
        have hcell := h (k / c) (k % c) hdiv (Nat.mod_lt _ hcpos)
        simp only [get, Nat.div_add_mod', List.getD_eq_getElem?_getD,
          List.getElem?_eq_getElem hk, List.getElem?_eq_getElem hk', Option.getD_some] at hcell
        exact hcell
      rw [hd]

/-- A cell after `generate` on a well-formed matrix. -/
theorem get_generate {A : Matrix} (hA : A.WF) (op : Unit → Int) {i j : Nat}
    (hi : i < A.rows_) (hj : j < A.cols_) :
    (A.generate op).get i j = op () := by
  have hl : i * A.cols_ + j < A.data_.length := by rw [hA]; exact offset_lt hi hj
  simp [get, generate, List.getElem?_replicate, hl]

theorem transform₁_WF {A : Matrix} (hA : A.WF) (op : Int → Int) : (A.transform₁ op).WF := by
  unfold WF at *
  simpa [transform₁] using hA

theorem generate_WF {A : Matrix} (hA : A.WF) (op : Unit → Int) : (A.generate op).WF := by
  unfold WF at *
  simpa [generate] using hA

theorem transform₂_WF {A B : Matrix} (hA : A.WF) (hB : B.WF) (hr : A.rows_ = B.rows_)
    (hc : A.cols_ = B.cols_) (op : Int → Int → Int) : (A.transform₂ B op).WF := by
  unfold WF at *
  simp [transform₂, hA, hB, hr, hc]

/-- The result of `transpose`: a well-formed matrix of the swapped shape whose
cell `(c, r)` is cell `(r, c)` of the receiver. -/
theorem transpose_result (M : Matrix) :
    M.transpose.WF ∧ M.transpose.rows_ = M.cols_ ∧ M.transpose.cols_ = M.rows_ ∧
    ∀ r c, r < M.rows_ → c < M.cols_ → M.transpose.get c r = M.get r c := by
  have key := nestLoop_spec
    (fun t : Matrix => t.WF ∧ t.rows_ = M.cols_ ∧ t.cols_ = M.rows_)
    (fun t a b => t.get b a) (fun a b v t => t.set b a v) M.rows_ M.cols_
    (fun t a b v hI _ _ => ⟨set_WF hI.1 _ _ _, hI.2.1, hI.2.2⟩)
    (fun t a b v hI ha hb =>
      get_set_self hI.1 (by rw [hI.2.1]; exact hb) (by rw [hI.2.2]; exact ha) v)
    (fun t a b a' b' v hI ha _ ha' _ hne =>
      get_set_of_ne (by rw [hI.2.2]; exact ha) (by rw [hI.2.2]; exact ha')
        (fun hh => hne ⟨hh.2, hh.1⟩) v)
    (fun row col => M.get row col) (ctor M.cols_ M.rows_) ⟨ctor_WF _ _, rfl, rfl⟩
  exact ⟨key.1.1, key.1.2.1, key.1.2.2, fun r c hr hc => key.2 r c hr hc⟩

/-- The result of `resize`: the target shape, the invariant, and every cell. -/
theorem resize_result (M : Matrix) (r c : Nat) :
    (M.resize r c).rows_ = r ∧ (M.resize r c).cols_ = c ∧
    (M.WF → (M.resize r c).WF) ∧
    ∀ i j, i < r → j < c →
      (M.resize r c).get i j
        = if i < min M.rows_ r ∧ j < min M.cols_ c then M.get i j else 0 := by
  by_cases hsame : M.cols_ = c ∧ M.rows_ = r
  · obtain ⟨hc, hr⟩ := hsame
    have hM : M.resize r c = M := by
      unfold resize
      rw [if_pos ⟨hc, hr⟩]
    rw [hM]
    refine ⟨hr, hc, fun h => h, ?_⟩
    intro i j hi hj
    have h1 : i < min M.rows_ r := by rw [hr]; simpa using hi
    have h2 : j < min M.cols_ c := by rw [hc]; simpa using hj
    simp [h1, h2]
  · rw [resize_ok M r c hsame]
    obtain ⟨hW, hr, hc, hget⟩ := writeLoop_spec (ctor_WF r c)
      (min r M.rows_) (min c M.cols_) (Nat.min_le_left _ _) (Nat.min_le_left _ _)
      (fun row col => M.get row col)
    refine ⟨hr, hc, fun _ => hW, ?_⟩
    intro i j _ hj
    rw [hget i j hj, get_ctor, Nat.min_comm r, Nat.min_comm c]

/-- A `resize` to the present shape returns at once. -/
theorem resize_noop (M : Matrix) (r c : Nat) (h : M.cols_ = c ∧ M.rows_ = r) :
    M.resize r c = M := by
  unfold resize
  rw [if_pos h]

/-- The row setter is `resize` with the column count held. -/
theorem setRows_eq_resize (M : Matrix) (n : Nat) : M.setRows n = M.resize n M.cols_ := by
  unfold setRows resize
  by_cases h : M.rows_ = n
  · simp [h]
  · simp [h, Nat.min_self]

/-- The column setter is `resize` with the row count held. -/
theorem setCols_eq_resize (M : Matrix) (n : Nat) : M.setCols n = M.resize M.rows_ n := by
  unfold setCols resize
  by_cases h : M.cols_ = n
  · simp [h]
  · simp [h, Nat.min_self]

theorem getD_set_self {α : Type} (l : List α) (i : Nat) (a d : α) (h : i < l.length) :
    (l.set i a).getD i d = a := by
  simp [List.getElem?_set_self h]

theorem getD_set_ne {α : Type} (l : List α) {i j : Nat} (a d : α) (h : i ≠ j) :
    (l.set i a).getD j d = l.getD j d := by
  simp [List.getElem?_set_ne h]

/-- The nested vector built by `convert_to_matrix_vector`: `rows_` rows of
`cols_` scalars, row `r` holding `self(r, c)` at `c`. -/
theorem convert_to_matrix_vector_cells (M : Matrix) :
    M.convert_to_matrix_vector.length = M.rows_ ∧
    (∀ r, r < M.rows_ → (M.convert_to_matrix_vector.getD r []).length = M.cols_) ∧
    ∀ r c, r < M.rows_ → c < M.cols_ →
      (M.convert_to_matrix_vector.getD r []).getD c 0 = M.get r c := by
  have key := nestLoop_spec
    (fun v : List (List Int) =>
      v.length = M.rows_ ∧ ∀ r, r < M.rows_ → (v.getD r []).length = M.cols_)
    (fun v a b => (v.getD a []).getD b 0)
    (fun a b x v => v.set a ((v.getD a []).set b x)) M.rows_ M.cols_
    (by
      rintro v a b x ⟨hlen, hrow⟩ ha _
      refine ⟨by simpa using hlen, ?_⟩
      intro r hr
      by_cases hra : a = r
      · subst hra
        rw [getD_set_self v a _ _ (by omega)]
        simpa using hrow a ha
      · rw [getD_set_ne v _ _ hra]
        exact hrow r hr)
    (by
      rintro v a b x ⟨hlen, hrow⟩ ha hb
      simp only []
      rw [getD_set_self v a _ _ (by omega),
        getD_set_self _ b _ _ (by rw [hrow a ha]; exact hb)])
    (by
      rintro v a b a' b' x ⟨hlen, hrow⟩ ha _ _ _ hne
      simp only []
      by_cases hra : a = a'
      · subst hra
        have hb : b ≠ b' := fun hbb => hne ⟨rfl, hbb.symm⟩
        rw [getD_set_self v a _ _ (by omega), getD_set_ne _ _ _ hb]
      · rw [getD_set_ne v _ _ hra])
    (fun row col => M.get row col)
    (List.replicate M.rows_ (List.replicate M.cols_ 0))
    ⟨by simp, fun r hr => by simp [List.getElem?_replicate, hr]⟩
  exact ⟨key.1.1, key.1.2, fun r c hr hc => key.2 r c hr hc⟩

/-- The nested vector, row by row. -/
theorem convert_to_matrix_vector_eq (M : Matrix) :
    M.convert_to_matrix_vector
      = (List.range M.rows_).map (fun r => (List.range M.cols_).map (fun c => M.get r c)) := by
  obtain ⟨hlen, hrow, hcell⟩ := convert_to_matrix_vector_cells M
  apply List.ext_getElem (by simp [hlen])
  intro r hr _
  have hr' : r < M.rows_ := by rw [← hlen]; exact hr
  have hrl := hrow r hr'
  rw [List.getD_eq_getElem _ _ hr] at hrl
  apply List.ext_getElem (by simp [hrl])
  intro c hc _
  have hc' : c < M.cols_ := by rw [← hrl]; exact hc
  have := hcell r c hr' hc'
  rw [List.getD_eq_getElem _ _ hr, List.getD_eq_getElem _ _ hc] at this
  simp [this]

/-- Cutting a buffer of `R * C` scalars into `R` rows of `C` and concatenating
the rows gives the buffer back. -/
theorem flatten_rows (C : Nat) : ∀ (R : Nat) (d : List Int), d.length = R * C →
    ((List.range R).map
      (fun r => (List.range C).map (fun c => d.getD (r * C + c) 0))).flatten = d
  | 0, d, h => by
    have hd : d = [] := by
      apply List.eq_nil_of_length_eq_zero
      simpa using h
    simp [hd]
  | R + 1, d, h => by
    have hC : C ≤ d.length := by
      rw [h, Nat.add_mul, Nat.one_mul]
      exact Nat.le_add_left _ _
    have hdrop : (d.drop C).length = R * C := by
      rw [List.length_drop, h, Nat.add_mul, Nat.one_mul, Nat.add_sub_cancel]
    have ih := flatten_rows C R (d.drop C) hdrop
    have h1 : (List.range C).map (fun c => d.getD (0 * C + c) 0) = d.take C := by
      apply List.ext_getElem (by simp [hC])
      intro k hk hk'
      have hkC : k < C := by simpa using hk
      have hkd : k < d.length := by omega
      simp [List.getElem_take, List.getElem?_eq_getElem hkd]
    have h2 : ∀ r : Nat, (List.range C).map (fun c => d.getD ((r + 1) * C + c) 0)
        = (List.range C).map (fun c => (d.drop C).getD (r * C + c) 0) := by
      intro r
      apply List.map_congr_left
      intro c _
      simp only [List.getD_eq_getElem?_getD, List.getElem?_drop]
      congr 2
      ring
    rw [List.range_succ_eq_map, List.map_cons, List.flatten_cons, List.map_map, h1]
    have h3 : ((fun r => (List.range C).map (fun c => d.getD (r * C + c) 0)) ∘ Nat.succ)
        = fun r => (List.range C).map (fun c => (d.drop C).getD (r * C + c) 0) := by
      funext r
      exact h2 r
    rw [h3, ih, List.take_append_drop]

/-- A member of the form `if (cond) throw e; write;` run on a receiver. -/
theorem guard_write_run (cond : Matrix → Bool) (e : MatrixError) (f : Matrix → Matrix)
    (M : Matrix) :
    Stmt.seq (Stmt.guard cond e) (Stmt.write f) M
      = if cond M then { result := .error e, self := M }
        else { result := .ok (), self := f M } := by
  unfold Stmt.seq Stmt.guard Stmt.throw Stmt.write
  by_cases h : cond M <;> simp [h]

/-- A member of the form `if (cond) throw e; write;` that throws has thrown from
its guard, with the receiver as it was. -/
theorem guard_write_atomic (cond : Matrix → Bool) (e e₁ : MatrixError) (f : Matrix → Matrix)
    (M : Matrix)
    (h : (Stmt.seq (Stmt.guard cond e) (Stmt.write f) M).result = .error e₁) :
    (Stmt.seq (Stmt.guard cond e) (Stmt.write f) M).self = M := by
  rw [guard_write_run] at h ⊢
  by_cases hc : cond M
  · simp [hc]
  · simp [hc] at h

theorem stdCopy_replicate (d : List Int) (n : Nat) (h : d.length = n) :
    stdCopy d (List.replicate n 0) = d := by
  simp [stdCopy, h]

/-- A checked loop whose every iteration stays inside its buffers, under an
invariant of the state, runs to the end and computes what the unchecked loop
computes. -/
theorem forLoopM_eq_some {σ : Type} (Inv : σ → Prop) (bodyM : Nat → σ → Option σ)
    (body : Nat → σ → σ) (n : Nat) (s : σ) (h₀ : Inv s)
    (hstep : ∀ k t, k < n → Inv t → bodyM k t = some (body k t) ∧ Inv (body k t)) :
    forLoopM n bodyM s = some (forLoop n body s) ∧ Inv (forLoop n body s) := by
  induction n with
  | zero => exact ⟨rfl, h₀⟩
  | succ k ih =>
    obtain ⟨heq, hI⟩ := ih (fun j t hj hI => hstep j t (Nat.lt_succ_of_lt hj) hI)
    have hk := hstep k _ (Nat.lt_succ_self k) hI
    refine ⟨?_, hk.2⟩
    show (forLoopM k bodyM s).bind (bodyM k) = some (body k (forLoop k body s))
    rw [heq]
    exact hk.1

/-- The same for a nest of two checked loops. -/
theorem nestM_eq_some {σ : Type} (Inv : σ → Prop) (cellM : Nat → Nat → σ → Option σ)
    (cell : Nat → Nat → σ → σ) (A B : Nat) (s : σ) (h₀ : Inv s)
    (hcell : ∀ a b t, a < A → b < B → Inv t →
      cellM a b t = some (cell a b t) ∧ Inv (cell a b t)) :
    forLoopM A (fun a t => forLoopM B (fun b t => cellM a b t) t) s
      = some (forLoop A (fun a t => forLoop B (fun b t => cell a b t) t) s) ∧
    Inv (forLoop A (fun a t => forLoop B (fun b t => cell a b t) t) s) :=
  forLoopM_eq_some Inv _ _ A s h₀ (fun a t ha hI =>
    forLoopM_eq_some Inv _ _ B t hI (fun b u hb hU => hcell a b u ha hb hU))

theorem sizeWrap_of_lt {n : Nat} (h : n < 18446744073709551616) : sizeWrap n = n :=
  Nat.mod_eq_of_lt h

/-- While the element count fits `size_type`, the machine allocates the buffer of
`rows * cols` zeros. -/
theorem ctorSized_eq {rows cols : Nat} (h : FitsSize rows cols) :
    ctorSized rows cols = ctor rows cols := by
  unfold ctorSized ctor
  rw [sizeWrap_of_lt h]

/-- The offset of a valid index pair does not wrap while the element count fits
`size_type`. -/
theorem sizeWrap_offset {R C r c : Nat} (hf : FitsSize R C) (hr : r < R) (hc : c < C) :
    sizeWrap (r * C + c) = r * C + c :=
  sizeWrap_of_lt (Nat.lt_trans (offset_lt hr hc) hf)

/-- A checked read at a valid index pair of a well-formed matrix whose element
count fits `size_type` is inside the buffer and reads what the unchecked
accessor reads. -/
theorem getChecked_eq {m : Matrix} (h : m.WF) (hf : FitsSize m.rows_ m.cols_) {r c : Nat}
    (hr : r < m.rows_) (hc : c < m.cols_) : m.getChecked r c = some (m.get r c) := by
  have hlt : r * m.cols_ + c < m.data_.length := by rw [h]; exact offset_lt hr hc
  simp [getChecked, get, sizeWrap_offset hf hr hc, List.getElem?_eq_getElem hlt]

/-- A checked write at a valid index pair of a well-formed matrix whose element
count fits `size_type` is inside the buffer. -/
theorem setChecked_eq {m : Matrix} (h : m.WF) (hf : FitsSize m.rows_ m.cols_) {r c : Nat}
    (hr : r < m.rows_) (hc : c < m.cols_) (v : Int) :
    m.setChecked r c v = some (m.set r c v) := by
  have hlt : r * m.cols_ + c < m.data_.length := by rw [h]; exact offset_lt hr hc
  simp [setChecked, set, sizeWrap_offset hf hr hc, hlt]

/-- One checked assignment `t(r₁, c₁) = src(r, c)`: the source is read with its
own column count, the target written with its own. -/
theorem copyCell_eq {src t : Matrix} (hs : src.WF) (hsf : FitsSize src.rows_ src.cols_)
    {R C : Nat} (hRC : FitsSize R C)
    (ht : t.WF ∧ t.rows_ = R ∧ t.cols_ = C) {r c r₁ c₁ : Nat} (hr : r < src.rows_)
    (hc : c < src.cols_) (hr₁ : r₁ < R) (hc₁ : c₁ < C) :
    (src.getChecked r c).bind (fun v => t.setChecked r₁ c₁ v)
        = some (t.set r₁ c₁ (src.get r c)) ∧
    ((t.set r₁ c₁ (src.get r c)).WF ∧ (t.set r₁ c₁ (src.get r c)).rows_ = R ∧
      (t.set r₁ c₁ (src.get r c)).cols_ = C) := by
  refine ⟨?_, set_WF ht.1 _ _ _, ht.2.1, ht.2.2⟩
  rw [getChecked_eq hs hsf hr hc]
  exact setChecked_eq ht.1 (by rw [ht.2.1, ht.2.2]; exact hRC)
    (by rw [ht.2.1]; exact hr₁) (by rw [ht.2.2]; exact hc₁) _

/-- Every access of the loops of `resize` is inside the buffer it addresses,
for a well-formed matrix and element counts that fit `size_type`. -/
theorem resizeChecked_eq {M : Matrix} (hW : M.WF) (hf : FitsSize M.rows_ M.cols_)
    (r c : Nat) (hrc : FitsSize r c) :
    M.resizeChecked r c = some (M.resize r c) := by
  by_cases hsame : M.cols_ = c ∧ M.rows_ = r
  · rw [resize_noop M r c hsame]
    unfold resizeChecked
    rw [if_pos hsame]
  · rw [resize_ok M r c hsame]
    unfold resizeChecked
    rw [if_neg hsame, ctorSized_eq hrc]
    have key := nestM_eq_some (fun t : Matrix => t.WF ∧ t.rows_ = r ∧ t.cols_ = c)
      (fun row col tmp => (M.getChecked row col).bind (fun v => tmp.setChecked row col v))
      (fun row col tmp => tmp.set row col (M.get row col))
      (min r M.rows_) (min c M.cols_) (ctor r c) ⟨ctor_WF r c, rfl, rfl⟩
      (fun a b t ha hb hI =>
        copyCell_eq hW hf hrc hI (by omega) (by omega) (by omega) (by omega))
    simp only [key.1, Option.map_some']
    rfl

theorem setRowsChecked_eq_resizeChecked (M : Matrix) (n : Nat) :
    M.setRowsChecked n = M.resizeChecked n M.cols_ := by
  unfold setRowsChecked resizeChecked
  by_cases h : M.rows_ = n
  · simp [h]
  · simp [h, Nat.min_self]

theorem setColsChecked_eq_resizeChecked (M : Matrix) (n : Nat) :
    M.setColsChecked n = M.resizeChecked M.rows_ n := by
  unfold setColsChecked resizeChecked
  by_cases h : M.cols_ = n
  · simp [h]
  · simp [h, Nat.min_self]

/-- Every access of the loops of `transpose` is inside the buffer it addresses,
for a well-formed matrix whose element count fits `size_type`. -/
theorem transposeChecked_eq {M : Matrix} (hW : M.WF) (hf : FitsSize M.rows_ M.cols_) :
    M.transposeChecked = some M.transpose := by
  have hf' : FitsSize M.cols_ M.rows_ := by
    unfold FitsSize at *
    rw [Nat.mul_comm]
    exact hf
  unfold transposeChecked
  rw [ctorSized_eq hf']
  exact (nestM_eq_some (fun t : Matrix => t.WF ∧ t.rows_ = M.cols_ ∧ t.cols_ = M.rows_)
    (fun row col t => (M.getChecked row col).bind (fun v => t.setChecked col row v))
    (fun row col t => t.set col row (M.get row col))
    M.rows_ M.cols_ (ctor M.cols_ M.rows_) ⟨ctor_WF _ _, rfl, rfl⟩
    (fun _ _ _ ha hb hI => copyCell_eq hW hf hf' hI ha hb hb ha)).1

/-- Every access of the loops of `to_identity` is inside the buffer, for a
well-formed matrix whose element count fits `size_type`. -/
theorem to_identityChecked_eq {M : Matrix} (hW : M.WF) (hf : FitsSize M.rows_ M.cols_) :
    M.to_identityChecked = some M.to_identity := by
  unfold to_identityChecked to_identity
  by_cases hsq : M.rows_ ≠ M.cols_
  · rw [if_pos hsq, if_pos hsq]
  · rw [if_neg hsq, if_neg hsq]
    have key := nestM_eq_some (fun t : Matrix => t.WF ∧ t.rows_ = M.rows_ ∧ t.cols_ = M.cols_)
      (fun row col m => m.setChecked row col (if row = col then 1 else 0))
      (fun row col m => m.set row col (if row = col then 1 else 0))
      M.rows_ M.cols_ M ⟨hW, rfl, rfl⟩
      (fun a b t ha hb hI =>
        ⟨setChecked_eq hI.1 (by rw [hI.2.1, hI.2.2]; exact hf)
            (by rw [hI.2.1]; exact ha) (by rw [hI.2.2]; exact hb) _,
          set_WF hI.1 _ _ _, hI.2.1, hI.2.2⟩)
    simp only [key.1, Option.map_some']

/-- The factory `identity` on a size whose element count fits `size_type`. -/
theorem identityChecked_eq {rows cols : Nat} (hf : FitsSize rows cols) :
    identityChecked rows cols = some (identity rows cols) := by
  unfold identityChecked identity
  rw [ctorSized_eq hf]
  exact to_identityChecked_eq (ctor_WF rows cols) hf

/-- Every access of the loops of `mul` is inside the buffer it addresses, for
well-formed operands and element counts that fit `size_type`. -/
theorem mulChecked_eq {A B : Matrix} (hA : A.WF) (hB : B.WF)
    (hfA : FitsSize A.rows_ A.cols_) (hfB : FitsSize B.rows_ B.cols_)
    (hfP : FitsSize A.rows_ B.cols_) :
    A.mulChecked B = some (A.mul B) := by
  by_cases h : A.cols_ = B.rows_
  · rw [mul_ok A B h]
    unfold mulChecked
    rw [if_neg (by simpa [rows] using h)]
    simp only [rows, cols]
    rw [ctorSized_eq hfP]
    have key := nestM_eq_some
      (fun t : Matrix => t.WF ∧ t.rows_ = A.rows_ ∧ t.cols_ = B.cols_)
      (fun row col t => forLoopM A.cols_ (fun k t =>
        (A.getChecked row k).bind (fun x =>
          (B.getChecked k col).bind (fun y => t.setChecked row col (wrapT (x * y))))) t)
      (fun row col t => forLoop A.cols_ (fun k t =>
        t.set row col (wrapT (A.get row k * B.get k col))) t)
      A.rows_ B.cols_ (ctor A.rows_ B.cols_) ⟨ctor_WF _ _, rfl, rfl⟩
      (fun a b t ha hb hI =>
        forLoopM_eq_some (fun t : Matrix => t.WF ∧ t.rows_ = A.rows_ ∧ t.cols_ = B.cols_)
          _ _ A.cols_ t hI (fun k u hk hU => by
            refine ⟨?_, set_WF hU.1 _ _ _, hU.2.1, hU.2.2⟩
            rw [getChecked_eq hA hfA ha hk, getChecked_eq hB hfB (by rw [← h]; exact hk) hb]
            exact setChecked_eq hU.1 (by rw [hU.2.1, hU.2.2]; exact hfP)
              (by rw [hU.2.1]; exact ha) (by rw [hU.2.2]; exact hb) _))
    simp only [key.1, Option.map_some']
    rfl
  · unfold mulChecked mul
    rw [if_pos (by simpa [rows] using h), if_pos (by simpa [rows] using h)]

/-- A checked loop whose first iteration leaves its buffer stops there. -/
theorem forLoopM_none {σ : Type} (body : Nat → σ → Option σ) (s : σ)
    (h : body 0 s = none) : ∀ n, 0 < n → forLoopM n body s = none
  | 0, hn => absurd hn (Nat.lt_irrefl 0)
  | 1, _ => h
  | n + 2, _ => by
    show (forLoopM (n + 1) body s).bind (body (n + 1)) = none
    rw [forLoopM_none body s h (n + 1) (Nat.succ_pos n)]
    rfl

end Matrix

/-! ## Matrix multiplication -/

/-- C1 (the code at the spec's own instance): `[[1,2],[3,4]] * [[5,6],[7,8]]`
evaluates, through `mul` and through `operator*`, to `[[14,16],[28,32]]`, the
last term `A(i,1) * B(1,j)` of each dot product, and not to the summed dot
product `[[19,22],[43,50]]` that the claim states; entry `(0,0)` is `14`
where the dot product is `19`. -/
theorem mul_example_keeps_last_term :
    Matrix.mul ⟨2, 2, [1, 2, 3, 4]⟩ ⟨2, 2, [5, 6, 7, 8]⟩ = .ok ⟨2, 2, [14, 16, 28, 32]⟩ ∧
    Matrix.opMul ⟨2, 2, [1, 2, 3, 4]⟩ ⟨2, 2, [5, 6, 7, 8]⟩ = .ok ⟨2, 2, [14, 16, 28, 32]⟩ ∧
    (⟨2, 2, [14, 16, 28, 32]⟩ : Matrix) ≠ ⟨2, 2, [19, 22, 43, 50]⟩ ∧
    Matrix.get ⟨2, 2, [14, 16, 28, 32]⟩ 0 0 = 14 ∧
    Matrix.specDot ⟨2, 2, [1, 2, 3, 4]⟩ ⟨2, 2, [5, 6, 7, 8]⟩ 0 0 = 19 := by
  refine ⟨rfl, rfl, by decide, rfl, rfl⟩

/-- C2 (the code at the spec's own instance): `identity(2,2) * [[1,2],[3,4]]`
evaluates to `[[0,0],[3,4]]`, and `operator==` of that product with
`[[1,2],[3,4]]` returns `false`: the identity is not a left identity for the
product the code computes. -/
theorem identity_mul_example_not_identity :
    ∃ I P, Matrix.identity 2 2 = .ok I ∧
      Matrix.opMul I ⟨2, 2, [1, 2, 3, 4]⟩ = .ok P ∧
      P = ⟨2, 2, [0, 0, 3, 4]⟩ ∧
      Matrix.opEq P ⟨2, 2, [1, 2, 3, 4]⟩ = .ok false :=
  ⟨⟨2, 2, [1, 0, 0, 1]⟩, ⟨2, 2, [0, 0, 3, 4]⟩, rfl, rfl, rfl, rfl⟩

/-- C4 as stated fails for a target shape whose element count does not fit
`size_type`: resizing the 1x1 matrix `[[5]]` to `4294967296 x 4294967296`
allocates `rows * cols` wrapped to 0 elements, so the new matrix has no cell
`(0, 0)` to hold the old value and the copy loop writes outside the buffer. -/
theorem resize_wrap_example :
    (Matrix.mk 1 1 [5]).WF ∧
    (Matrix.ctorSized 4294967296 4294967296).rows_ = 4294967296 ∧
    (Matrix.ctorSized 4294967296 4294967296).cols_ = 4294967296 ∧
    (Matrix.ctorSized 4294967296 4294967296).data_ = [] ∧
    Matrix.getChecked (Matrix.ctorSized 4294967296 4294967296) 0 0 = none ∧
    Matrix.resizeChecked ⟨1, 1, [5]⟩ 4294967296 4294967296 = none := by
  refine ⟨by decide, rfl, rfl, rfl, rfl, rfl⟩

/-- C4 (amended): for a matrix `M` of shape `R x C` and a target shape `(r, c)`
whose element counts `R * C` and `r * c` fit `size_type`, after `M.resize(r, c)`
the matrix has shape `r x c`; every cell of the overlap `i < min(R,r)`,
`j < min(C,c)` holds the value `M(i,j)` had before and every other cell is zero;
with `(r,c) == (R,C)` the matrix is unchanged. `[[1,2],[3,4]]` resized to 3x3 is
`[[1,2,0],[3,4,0],[0,0,0]]`, and the 3x3 identity resized to 2x2 is
`[[1,0],[0,1]]`. -/
theorem resize_spec (M : Matrix) (r c : Nat) :
    (M.WF → Matrix.FitsSize M.rows_ M.cols_ → Matrix.FitsSize r c →
      ∃ M₁, M.resizeChecked r c = some M₁ ∧ M₁.WF ∧ M₁.rows_ = r ∧ M₁.cols_ = c ∧
        (∀ i j, i < r → j < c →
          M₁.getChecked i j
            = some (if i < min M.rows_ r ∧ j < min M.cols_ c then M.get i j else 0)) ∧
        (r = M.rows_ → c = M.cols_ → M₁ = M)) ∧
    Matrix.resizeChecked ⟨2, 2, [1, 2, 3, 4]⟩ 3 3 = some ⟨3, 3, [1, 2, 0, 3, 4, 0, 0, 0, 0]⟩ ∧
    (∃ I, Matrix.identityChecked 3 3 = some (.ok I) ∧
      I.resizeChecked 2 2 = some ⟨2, 2, [1, 0, 0, 1]⟩) := by
  refine ⟨?_, rfl, ⟨⟨3, 3, [1, 0, 0, 0, 1, 0, 0, 0, 1]⟩, rfl, rfl⟩⟩
  intro hW hf hrc
  obtain ⟨hr, hc, hWF, hget⟩ := Matrix.resize_result M r c
  have hf₁ : Matrix.FitsSize (M.resize r c).rows_ (M.resize r c).cols_ := by
    rw [hr, hc]
    exact hrc
  refine ⟨M.resize r c, Matrix.resizeChecked_eq hW hf r c hrc, hWF hW, hr, hc, ?_, ?_⟩
  · intro i j hi hj
    rw [Matrix.getChecked_eq (hWF hW) hf₁ (by rw [hr]; exact hi) (by rw [hc]; exact hj),
      hget i j hi hj]
  · intro hr₀ hc₀
    exact Matrix.resize_noop M r c ⟨hc₀.symm, hr₀.symm⟩

theorem resize_spec_witness :
    ((Matrix.mk 2 2 [1, 2, 3, 4]).WF ∧ Matrix.FitsSize 2 2 ∧ Matrix.FitsSize 3 1) ∧
    ∃ M₁, (Matrix.mk 2 2 [1, 2, 3, 4]).resizeChecked 3 1 = some M₁ ∧ M₁ = ⟨3, 1, [1, 3, 0]⟩ :=
  ⟨⟨by decide, by decide, by decide⟩, by
    obtain ⟨M₁, h, -⟩ :=
      (resize_spec ⟨2, 2, [1, 2, 3, 4]⟩ 3 1).1 (by decide) (by decide) (by decide)
    exact ⟨M₁, h, by
      injection h.symm.trans (by rfl : Matrix.resizeChecked _ 3 1 = some _)⟩⟩

/-- C5 as stated fails for move assignment into a live target: with
`a = [[1]]` and `b = [[2]]`, after `b = move(a)` the source `a` holds
`b`'s former contents `[[2]]`, so `a.rows() == 1` and `a.cols() == 1`. -/
theorem moveAssign_source_not_empty :
    (Matrix.moveAssign ⟨1, 1, [2]⟩ ⟨1, 1, [1]⟩).1 = ⟨1, 1, [1]⟩ ∧
    (Matrix.moveAssign ⟨1, 1, [2]⟩ ⟨1, 1, [1]⟩).2 = ⟨1, 1, [2]⟩ ∧
    ¬ ((Matrix.moveAssign ⟨1, 1, [2]⟩ ⟨1, 1, [1]⟩).2.rows = 0 ∧
       (Matrix.moveAssign ⟨1, 1, [2]⟩ ⟨1, 1, [1]⟩).2.cols = 0) := by
  refine ⟨rfl, rfl, ?_⟩
  decide

/-- C5 (amended): move construction gives the new object the source's shape and
elements and leaves the source empty (`rows() == 0`, `cols() == 0`, no buffer);
move assignment `b = move(a)` between distinct objects gives `b` the shape and
elements of `a` and gives `a` those `b` had before, so `a` is left with
`rows() == 0` and `cols() == 0` exactly when `b` had them before the move. -/
theorem move_spec (a b : Matrix) :
    (Matrix.ctorMove a).1 = a ∧
    (Matrix.ctorMove a).2.rows = 0 ∧ (Matrix.ctorMove a).2.cols = 0 ∧
    (Matrix.ctorMove a).2.data_ = [] ∧
    (Matrix.moveAssign b a).1 = a ∧
    (Matrix.moveAssign b a).2 = b ∧
    (((Matrix.moveAssign b a).2.rows = 0 ∧ (Matrix.moveAssign b a).2.cols = 0)
      ↔ (b.rows = 0 ∧ b.cols = 0)) :=
  ⟨rfl, rfl, rfl, rfl, rfl, rfl, Iff.rfl⟩

/-! ## Elementwise addition and subtraction -/

/-- C6 as stated fails where the sum or difference leaves the range of the
scalar type: `[[2147483647]].add([[1]])` leaves `-2147483648` in the cell, not
the sum `2147483648`, and `[[-2147483648]].sub([[1]])` leaves `2147483647`, not
`-2147483649`; all four operands are values of `int`. -/
theorem add_sub_overflow_example :
    Matrix.add ⟨1, 1, [2147483647]⟩ ⟨1, 1, [1]⟩ = .ok ⟨1, 1, [-2147483648]⟩ ∧
    Matrix.get ⟨1, 1, [-2147483648]⟩ 0 0
      ≠ Matrix.get ⟨1, 1, [2147483647]⟩ 0 0 + Matrix.get ⟨1, 1, [1]⟩ 0 0 ∧
    Matrix.sub ⟨1, 1, [-2147483648]⟩ ⟨1, 1, [1]⟩ = .ok ⟨1, 1, [2147483647]⟩ ∧
    Matrix.get ⟨1, 1, [2147483647]⟩ 0 0
      ≠ Matrix.get ⟨1, 1, [-2147483648]⟩ 0 0 - Matrix.get ⟨1, 1, [1]⟩ 0 0 ∧
    InT 2147483647 ∧ InT 1 ∧ InT (-2147483648) := by
  refine ⟨rfl, by decide, rfl, by decide, by decide, by decide, by decide⟩

/-- C6 (amended): `A.add(B)` fails with ShapeMismatch if and only if the shapes
of `A` and `B` differ, and so does `A.sub(B)`; when the shapes agree they
succeed, keep the shape of `A`, and replace every element `A(i,j)` by the sum
`A(i,j) + B(i,j)`, respectively the difference `A(i,j) - B(i,j)`, as computed
in the scalar type: the mathematical value whenever that is representable, its
wrap-around otherwise. `[[1,2],[3,4]] + [[5,6],[7,8]] == [[6,8],[10,12]]`. -/
theorem add_sub_spec (A B : Matrix) :
    (A.add B = .error .ShapeMismatch ↔ (A.rows_ ≠ B.rows_ ∨ A.cols_ ≠ B.cols_)) ∧
    (A.sub B = .error .ShapeMismatch ↔ (A.rows_ ≠ B.rows_ ∨ A.cols_ ≠ B.cols_)) ∧
    (A.WF → B.WF → A.rows_ = B.rows_ → A.cols_ = B.cols_ →
      ∃ S D, A.add B = .ok S ∧ A.sub B = .ok D ∧
        S.rows_ = A.rows_ ∧ S.cols_ = A.cols_ ∧ D.rows_ = A.rows_ ∧ D.cols_ = A.cols_ ∧
        ∀ i j, i < A.rows_ → j < A.cols_ →
          S.get i j = wrapT (A.get i j + B.get i j) ∧
          D.get i j = wrapT (A.get i j - B.get i j) ∧
          (InT (A.get i j + B.get i j) → S.get i j = A.get i j + B.get i j) ∧
          (InT (A.get i j - B.get i j) → D.get i j = A.get i j - B.get i j)) ∧
    (∃ S, Matrix.opAdd ⟨2, 2, [1, 2, 3, 4]⟩ ⟨2, 2, [5, 6, 7, 8]⟩ = .ok S ∧
      Matrix.opEq S ⟨2, 2, [6, 8, 10, 12]⟩ = .ok true) := by
  refine ⟨?_, ?_, ?_, ⟨⟨2, 2, [6, 8, 10, 12]⟩, rfl, rfl⟩⟩
  · by_cases h : B.rows_ ≠ A.rows_ ∨ B.cols_ ≠ A.cols_
    · have h' : A.rows_ ≠ B.rows_ ∨ A.cols_ ≠ B.cols_ := h.imp Ne.symm Ne.symm
      simp only [Matrix.add, Matrix.rows, Matrix.cols, if_pos h, h', iff_true]
    · have h' : ¬ (A.rows_ ≠ B.rows_ ∨ A.cols_ ≠ B.cols_) := fun hh => h (hh.imp Ne.symm Ne.symm)
      simp only [Matrix.add, Matrix.rows, Matrix.cols, if_neg h, h', iff_false]
      intro hh
      cases hh
  · by_cases h : B.rows_ ≠ A.rows_ ∨ B.cols_ ≠ A.cols_
    · have h' : A.rows_ ≠ B.rows_ ∨ A.cols_ ≠ B.cols_ := h.imp Ne.symm Ne.symm
      simp only [Matrix.sub, Matrix.rows, Matrix.cols, if_pos h, h', iff_true]
    · have h' : ¬ (A.rows_ ≠ B.rows_ ∨ A.cols_ ≠ B.cols_) := fun hh => h (hh.imp Ne.symm Ne.symm)
      simp only [Matrix.sub, Matrix.rows, Matrix.cols, if_neg h, h', iff_false]
      intro hh
      cases hh
  · intro hA hB hr hc
    have h : ¬ (B.rows_ ≠ A.rows_ ∨ B.cols_ ≠ A.cols_) := by simp [hr, hc]
    refine ⟨A.transform₂ B (fun lhs rhs => wrapT (lhs + rhs)),
      A.transform₂ B (fun lhs rhs => wrapT (lhs - rhs)), ?_, ?_, rfl, rfl, rfl, rfl, ?_⟩
    · simp only [Matrix.add, Matrix.rows, Matrix.cols, if_neg h]
    · simp only [Matrix.sub, Matrix.rows, Matrix.cols, if_neg h]
    · intro i j hi hj
      have hS : (A.transform₂ B (fun lhs rhs => wrapT (lhs + rhs))).get i j
          = wrapT (A.get i j + B.get i j) := Matrix.get_transform₂ hA hB hr hc _ hi hj
      have hD : (A.transform₂ B (fun lhs rhs => wrapT (lhs - rhs))).get i j
          = wrapT (A.get i j - B.get i j) := Matrix.get_transform₂ hA hB hr hc _ hi hj
      exact ⟨hS, hD, fun hin => hS.trans (wrapT_of_InT hin),
        fun hin => hD.trans (wrapT_of_InT hin)⟩

theorem add_sub_spec_witness :
    ((Matrix.mk 2 2 [1, 2, 3, 4]).WF ∧ (Matrix.mk 2 2 [5, 6, 7, 8]).WF ∧
      (Matrix.mk 2 2 [1, 2, 3, 4]).rows_ = (Matrix.mk 2 2 [5, 6, 7, 8]).rows_ ∧
      (Matrix.mk 2 2 [1, 2, 3, 4]).cols_ = (Matrix.mk 2 2 [5, 6, 7, 8]).cols_) ∧
    ∃ S D, (Matrix.mk 2 2 [1, 2, 3, 4]).add (Matrix.mk 2 2 [5, 6, 7, 8]) = .ok S ∧
      (Matrix.mk 2 2 [1, 2, 3, 4]).sub (Matrix.mk 2 2 [5, 6, 7, 8]) = .ok D ∧
      S = ⟨2, 2, [6, 8, 10, 12]⟩ ∧ D = ⟨2, 2, [-4, -4, -4, -4]⟩ :=
  ⟨⟨by decide, by decide, rfl, rfl⟩, by
    obtain ⟨S, D, hS, hD, -⟩ :=
      (add_sub_spec ⟨2, 2, [1, 2, 3, 4]⟩ ⟨2, 2, [5, 6, 7, 8]⟩).2.2.1
        (by decide) (by decide) rfl rfl
    exact ⟨S, D, hS, hD, by injection hS.symm.trans (by rfl : Matrix.add _ _ = .ok _),
      by injection hD.symm.trans (by rfl : Matrix.sub _ _ = .ok _)⟩⟩

/-! ## Equality -/

/-- C7: `A.equal_to(B)`, and `operator==`, fail with ShapeMismatch if and only
if `A.rows != B.rows` or `A.cols != B.cols`; on a shape difference the result
is never the boolean `false`, and for equal shapes a boolean is returned. -/
theorem equal_to_shape_check (A B : Matrix) :
    (A.equal_to B = .error .ShapeMismatch ↔ (A.rows_ ≠ B.rows_ ∨ A.cols_ ≠ B.cols_)) ∧
    (A.opEq B = .error .ShapeMismatch ↔ (A.rows_ ≠ B.rows_ ∨ A.cols_ ≠ B.cols_)) ∧
    ((A.rows_ ≠ B.rows_ ∨ A.cols_ ≠ B.cols_) → A.equal_to B ≠ .ok false) ∧
    (A.rows_ = B.rows_ → A.cols_ = B.cols_ →
      ∃ b : Bool, A.equal_to B = .ok b ∧ A.opEq B = .ok b) := by
  have hthrow : (A.rows_ ≠ B.rows_ ∨ A.cols_ ≠ B.cols_) →
      A.equal_to B = .error .ShapeMismatch := by
    intro h
    have h' : B.rows ≠ A.rows_ ∨ B.cols ≠ A.cols_ := h.imp Ne.symm Ne.symm
    unfold Matrix.equal_to
    rw [if_pos h']
  have hiff : A.equal_to B = .error .ShapeMismatch ↔ (A.rows_ ≠ B.rows_ ∨ A.cols_ ≠ B.cols_) := by
    constructor
    · intro herr
      by_contra hne
      have hr : A.rows_ = B.rows_ := by
        by_contra hr
        exact hne (Or.inl hr)
      have hc : A.cols_ = B.cols_ := by
        by_contra hc
        exact hne (Or.inr hc)
      rw [Matrix.equal_to_ok A B hr hc] at herr
      cases herr
    · exact hthrow
  refine ⟨hiff, hiff, ?_, ?_⟩
  · intro h hfalse
    rw [hthrow h] at hfalse
    cases hfalse
  · intro hr hc
    exact ⟨_, Matrix.equal_to_ok A B hr hc, Matrix.equal_to_ok A B hr hc⟩

theorem equal_to_shape_check_witness :
    (((Matrix.mk 1 2 [1, 2]).rows_ ≠ (Matrix.mk 2 1 [1, 2]).rows_ ∨
        (Matrix.mk 1 2 [1, 2]).cols_ ≠ (Matrix.mk 2 1 [1, 2]).cols_) ∧
      (Matrix.mk 1 2 [1, 2]).equal_to (Matrix.mk 2 1 [1, 2]) ≠ .ok false) ∧
    (((Matrix.mk 1 2 [1, 2]).rows_ = (Matrix.mk 1 2 [1, 3]).rows_ ∧
        (Matrix.mk 1 2 [1, 2]).cols_ = (Matrix.mk 1 2 [1, 3]).cols_) ∧
      ∃ b : Bool, (Matrix.mk 1 2 [1, 2]).equal_to (Matrix.mk 1 2 [1, 3]) = .ok b ∧
        (Matrix.mk 1 2 [1, 2]).opEq (Matrix.mk 1 2 [1, 3]) = .ok b) :=
  ⟨⟨Or.inl (by decide),
      (equal_to_shape_check ⟨1, 2, [1, 2]⟩ ⟨2, 1, [1, 2]⟩).2.2.1 (Or.inl (by decide))⟩,
    ⟨⟨rfl, rfl⟩, (equal_to_shape_check ⟨1, 2, [1, 2]⟩ ⟨1, 2, [1, 3]⟩).2.2.2 rfl rfl⟩⟩

/-- C8: for an integral scalar type (`epsilon = 0`) and matrices `A`, `B` of
one shape, `A.equal_to(B)` returns `true` if and only if `A(i,j) == B(i,j)` in
every cell, and a differing cell in any row makes it return `false`, although
the early exit of the scan leaves the column loop only. -/
theorem equal_to_iff_cells (A B : Matrix) (hr : A.rows_ = B.rows_) (hc : A.cols_ = B.cols_) :
    (A.equal_to B = .ok true ↔
      ∀ i j, i < A.rows_ → j < A.cols_ → A.get i j = B.get i j) ∧
    ((∃ i j, i < A.rows_ ∧ j < A.cols_ ∧ A.get i j ≠ B.get i j) →
      A.equal_to B = .ok false) := by
  have hscan := Matrix.equalScan_spec A B A.rows_
  have hok := Matrix.equal_to_ok A B hr hc
  constructor
  · rw [hok]
    constructor
    · intro h
      exact hscan.mp (by injection h)
    · intro h
      rw [hscan.mpr h]
  · rintro ⟨i, j, hi, hj, hne⟩
    rw [hok]
    congr 1
    rw [← Bool.not_eq_true]
    intro htrue
    exact hne (hscan.mp htrue i j hi hj)

theorem equal_to_iff_cells_witness :
    ((Matrix.mk 2 2 [1, 2, 3, 4]).rows_ = (Matrix.mk 2 2 [0, 2, 3, 4]).rows_ ∧
      (Matrix.mk 2 2 [1, 2, 3, 4]).cols_ = (Matrix.mk 2 2 [0, 2, 3, 4]).cols_ ∧
      ∃ i j, i < 2 ∧ j < 2 ∧
        (Matrix.mk 2 2 [1, 2, 3, 4]).get i j ≠ (Matrix.mk 2 2 [0, 2, 3, 4]).get i j) ∧
    (Matrix.mk 2 2 [1, 2, 3, 4]).equal_to (Matrix.mk 2 2 [0, 2, 3, 4]) = .ok false :=
  ⟨⟨rfl, rfl, 0, 0, by decide, by decide, by decide⟩,
    (equal_to_iff_cells ⟨2, 2, [1, 2, 3, 4]⟩ ⟨2, 2, [0, 2, 3, 4]⟩ rfl rfl).2
      ⟨0, 0, by decide, by decide, by decide⟩⟩

/-! ## Identity -/

/-- C9 as stated fails for a square size whose element count does not fit
`size_type`: `identity(4294967296, 4294967296)` allocates `rows * cols` wrapped
to 0 elements, and the first assignment of `to_identity`, to cell `(0, 0)`, is
outside that buffer, so no matrix with 1 on the diagonal is returned. -/
theorem identity_wrap_example :
    (Matrix.ctorSized 4294967296 4294967296).data_ = [] ∧
    Matrix.identityChecked 4294967296 4294967296 = none := by
  refine ⟨rfl, ?_⟩
  have hcell : Matrix.setChecked (Matrix.ctorSized 4294967296 4294967296) 0 0
      (if 0 = 0 then 1 else 0) = none := rfl
  have hrow := Matrix.forLoopM_none
    (fun col m => Matrix.setChecked m 0 col (if 0 = col then 1 else 0))
    (Matrix.ctorSized 4294967296 4294967296) hcell 4294967296 (by decide)
  have hall := Matrix.forLoopM_none
    (fun row m => forLoopM 4294967296
      (fun col m => Matrix.setChecked m row col (if row = col then 1 else 0)) m)
    (Matrix.ctorSized 4294967296 4294967296) hrow 4294967296 (by decide)
  unfold Matrix.identityChecked Matrix.to_identityChecked
  rw [if_neg (by simp [Matrix.ctorSized])]
  show Option.map Except.ok
    (forLoopM 4294967296 (fun row m => forLoopM 4294967296
      (fun col m => Matrix.setChecked m row col (if row = col then 1 else 0)) m)
      (Matrix.ctorSized 4294967296 4294967296)) = none
  rw [hall]
  rfl

/-- C9 (amended): `identity(rows, cols)` fails with NotSquare if and only if
`rows != cols`; with `rows == cols == n` and `n * n` fitting `size_type` it
returns an `n x n` matrix whose cell `(i,j)` is 1 when `i == j` and 0 otherwise.
`to_identity()` on an existing matrix `M` obeys the same rule and overwrites
every cell whatever it held. -/
theorem identity_spec (rows cols : Nat) (M : Matrix) :
    (Matrix.identityChecked rows cols = some (.error .NotSquare) ↔ rows ≠ cols) ∧
    (rows = cols → Matrix.FitsSize rows cols →
      ∃ I, Matrix.identityChecked rows cols = some (.ok I) ∧ I.rows_ = rows ∧ I.cols_ = cols ∧
        ∀ i j, i < rows → j < cols → I.getChecked i j = some (if i = j then 1 else 0)) ∧
    (M.to_identityChecked = some (.error .NotSquare) ↔ M.rows_ ≠ M.cols_) ∧
    (M.WF → Matrix.FitsSize M.rows_ M.cols_ → M.rows_ = M.cols_ →
      ∃ I, M.to_identityChecked = some (.ok I) ∧ I.rows_ = M.rows_ ∧ I.cols_ = M.cols_ ∧
        ∀ i j, i < M.rows_ → j < M.cols_ →
          I.getChecked i j = some (if i = j then 1 else 0)) ∧
    Matrix.identityChecked 3 3 = some (.ok ⟨3, 3, [1, 0, 0, 0, 1, 0, 0, 0, 1]⟩) ∧
    Matrix.identityChecked 2 3 = some (.error .NotSquare) := by
  have hthrow : ∀ N : Matrix, N.to_identityChecked = some (.error .NotSquare)
      ↔ N.rows_ ≠ N.cols_ := by
    intro N
    unfold Matrix.to_identityChecked
    by_cases hsq : N.rows_ ≠ N.cols_
    · simp [hsq]
    · rw [if_neg hsq]
      simp only [hsq, iff_false]
      intro h
      cases hX : forLoopM N.rows_ (fun row m => forLoopM N.cols_
          (fun col m => m.setChecked row col (if row = col then 1 else 0)) m) N with
      | none => rw [hX] at h; cases h
      | some X => rw [hX] at h; cases h
  have hok : ∀ N : Matrix, N.WF → Matrix.FitsSize N.rows_ N.cols_ → N.rows_ = N.cols_ →
      ∃ I, N.to_identityChecked = some (.ok I) ∧ I.rows_ = N.rows_ ∧ I.cols_ = N.cols_ ∧
        ∀ i j, i < N.rows_ → j < N.cols_ →
          I.getChecked i j = some (if i = j then 1 else 0) := by
    intro N hW hf hsq
    obtain ⟨hW₁, hr, hc, hget⟩ := Matrix.writeLoop_spec hW N.rows_ N.cols_
      (Nat.le_refl _) (Nat.le_refl _) (fun row col => if row = col then 1 else 0)
    refine ⟨_, (Matrix.to_identityChecked_eq hW hf).trans
      (congrArg some (Matrix.to_identity_ok N hsq)), hr, hc, ?_⟩
    intro i j hi hj
    rw [Matrix.getChecked_eq hW₁ (by rw [hr, hc]; exact hf) (by rw [hr]; exact hi)
      (by rw [hc]; exact hj), hget i j hj]
    simp only [hi, hj, and_self, if_true]
  refine ⟨hthrow (Matrix.ctorSized rows cols), ?_, hthrow M, hok M, rfl, rfl⟩
  intro hsq hf
  have := hok (Matrix.ctor rows cols) (Matrix.ctor_WF rows cols) hf hsq
  unfold Matrix.identityChecked
  rw [Matrix.ctorSized_eq hf]
  exact this

theorem identity_spec_witness :
    ((3 = 3 ∧ Matrix.FitsSize 3 3) ∧
      ∃ I, Matrix.identityChecked 3 3 = some (.ok I) ∧ I.rows_ = 3 ∧ I.cols_ = 3 ∧
        ∀ i j, i < 3 → j < 3 → I.getChecked i j = some (if i = j then 1 else 0)) ∧
    (((Matrix.mk 2 2 [7, 8, 9, 5]).WF ∧ Matrix.FitsSize 2 2 ∧
        (Matrix.mk 2 2 [7, 8, 9, 5]).rows_ = (Matrix.mk 2 2 [7, 8, 9, 5]).cols_) ∧
      ∃ I, (Matrix.mk 2 2 [7, 8, 9, 5]).to_identityChecked = some (.ok I) ∧
        I.rows_ = 2 ∧ I.cols_ = 2 ∧
        ∀ i j, i < 2 → j < 2 → I.getChecked i j = some (if i = j then 1 else 0)) :=
  ⟨⟨⟨rfl, by decide⟩, (identity_spec 3 3 ⟨2, 2, [7, 8, 9, 5]⟩).2.1 rfl (by decide)⟩,
    ⟨⟨by decide, by decide, rfl⟩,
      (identity_spec 3 3 ⟨2, 2, [7, 8, 9, 5]⟩).2.2.2.1 (by decide) (by decide) rfl⟩⟩

/-! ## Checked access -/

/-- C10: `M.at(r, c)` fails with IndexOutOfRange if and only if `r >= M.rows`
or `c >= M.cols`; otherwise it returns the element stored at the linear offset
`r * cols + c` of the buffer, which is the element the unchecked accessor
`M(r, c)` returns. -/
theorem at_spec (M : Matrix) (r c : Nat) :
    (M.at r c = .error .IndexOutOfRange ↔ (r ≥ M.rows_ ∨ c ≥ M.cols_)) ∧
    (r < M.rows_ → c < M.cols_ → M.at r c = .ok (M.get r c)) ∧
    (M.WF → r < M.rows_ → c < M.cols_ →
      ∃ h : r * M.cols_ + c < M.data_.length,
        M.at r c = .ok (M.data_.get ⟨r * M.cols_ + c, h⟩) ∧
        M.get r c = M.data_.get ⟨r * M.cols_ + c, h⟩) := by
  have hin : r < M.rows_ → c < M.cols_ → M.at r c = .ok (M.get r c) := by
    intro hr hc
    unfold Matrix.at
    rw [if_neg (by omega)]
  refine ⟨?_, hin, ?_⟩
  · constructor
    · intro herr
      by_contra hne
      rw [hin (by omega) (by omega)] at herr
      cases herr
    · intro h
      unfold Matrix.at
      rw [if_pos h]
  · intro hW hr hc
    have hlt : r * M.cols_ + c < M.data_.length := by
      rw [hW]
      exact offset_lt hr hc
    have hget : M.get r c = M.data_.get ⟨r * M.cols_ + c, hlt⟩ := by
      simp [Matrix.get, List.getElem?_eq_getElem hlt]
    exact ⟨hlt, by rw [hin hr hc, hget], hget⟩

theorem at_spec_witness :
    ((Matrix.mk 2 3 [1, 2, 3, 4, 5, 6]).WF ∧ 1 < (Matrix.mk 2 3 [1, 2, 3, 4, 5, 6]).rows_ ∧
      2 < (Matrix.mk 2 3 [1, 2, 3, 4, 5, 6]).cols_) ∧
    ∃ h : 1 * (Matrix.mk 2 3 [1, 2, 3, 4, 5, 6]).cols_ + 2
        < (Matrix.mk 2 3 [1, 2, 3, 4, 5, 6]).data_.length,
      (Matrix.mk 2 3 [1, 2, 3, 4, 5, 6]).at 1 2
        = .ok ((Matrix.mk 2 3 [1, 2, 3, 4, 5, 6]).data_.get
            ⟨1 * (Matrix.mk 2 3 [1, 2, 3, 4, 5, 6]).cols_ + 2, h⟩) ∧
      (Matrix.mk 2 3 [1, 2, 3, 4, 5, 6]).get 1 2
        = (Matrix.mk 2 3 [1, 2, 3, 4, 5, 6]).data_.get
            ⟨1 * (Matrix.mk 2 3 [1, 2, 3, 4, 5, 6]).cols_ + 2, h⟩ :=
  ⟨⟨by decide, by decide, by decide⟩,
    (at_spec ⟨2, 3, [1, 2, 3, 4, 5, 6]⟩ 1 2).2.2 (by decide) (by decide) (by decide)⟩

/-! ## Construction -/

/-- C11 as stated fails for sizes whose element count does not fit `size_type`:
`Matrix(4294967296, 4294967296)` and `Matrix(4294967296, 4294967296, 7)` report
`rows() == cols() == 4294967296` but own a buffer of `rows * cols` wrapped to 0
elements, so cell `(0, 0)` is no element of the matrix. -/
theorem ctor_wrap_example :
    (Matrix.ctorSized 4294967296 4294967296).rows = 4294967296 ∧
    (Matrix.ctorSized 4294967296 4294967296).cols = 4294967296 ∧
    (Matrix.ctorSized 4294967296 4294967296).data_ = [] ∧
    (Matrix.ctorSized 4294967296 4294967296).getChecked 0 0 = none ∧
    (Matrix.ctorFillSized 4294967296 4294967296 7).data_ = [] ∧
    (Matrix.ctorFillSized 4294967296 4294967296 7).getChecked 0 0 = none := by
  refine ⟨rfl, rfl, rfl, rfl, rfl, rfl⟩

/-- C11 (amended): for sizes `r`, `c` whose product fits `size_type` and every
scalar `f`, `Matrix(r, c)` has `rows() == r`, `cols() == c` and every element
zero; `Matrix(r, c, f)` has the same shape with every element equal to `f`, also
when `f` is zero and the fill step is skipped; `Matrix(2, 2, 7)` has all four
elements equal to 7. -/
theorem ctor_spec (r c : Nat) (f : Int) :
    (Matrix.ctorSized r c).rows = r ∧ (Matrix.ctorSized r c).cols = c ∧
    (Matrix.ctorFillSized r c f).rows = r ∧ (Matrix.ctorFillSized r c f).cols = c ∧
    (Matrix.FitsSize r c →
      (Matrix.ctorSized r c).data_ = List.replicate (r * c) 0 ∧
      (∀ i j, i < r → j < c → (Matrix.ctorSized r c).getChecked i j = some 0) ∧
      (Matrix.ctorFillSized r c f).data_ = List.replicate (r * c) f ∧
      (∀ i j, i < r → j < c → (Matrix.ctorFillSized r c f).getChecked i j = some f)) ∧
    Matrix.ctorFillSized 2 2 7 = ⟨2, 2, [7, 7, 7, 7]⟩ := by
  have hshape : (Matrix.ctorFillSized r c f).rows_ = r ∧ (Matrix.ctorFillSized r c f).cols_ = c := by
    unfold Matrix.ctorFillSized
    by_cases hf : f = 0
    · simp [hf, Matrix.ctorSized]
    · simp [hf, Matrix.ctorSized, Matrix.fill, Matrix.generate]
  refine ⟨rfl, rfl, hshape.1, hshape.2, ?_, rfl⟩
  intro hfit
  have hfill : Matrix.ctorFillSized r c f = ⟨r, c, List.replicate (r * c) f⟩ := by
    unfold Matrix.ctorFillSized
    rw [Matrix.ctorSized_eq hfit]
    by_cases hf : f = 0
    · simp [hf, Matrix.ctor]
    · simp [hf, Matrix.ctor, Matrix.fill, Matrix.generate]
  have hcells : ∀ (v : Int) (i j : Nat), i < r → j < c →
      Matrix.getChecked ⟨r, c, List.replicate (r * c) v⟩ i j = some v := by
    intro v i j hi hj
    have hoff : i * c + j < r * c := offset_lt hi hj
    simp [Matrix.getChecked, Matrix.sizeWrap_offset hfit hi hj, List.getElem?_replicate, hoff]
  refine ⟨by rw [Matrix.ctorSized_eq hfit]; rfl, ?_, by rw [hfill], ?_⟩
  · intro i j hi hj
    rw [Matrix.ctorSized_eq hfit]
    exact hcells 0 i j hi hj
  · intro i j hi hj
    rw [hfill]
    exact hcells f i j hi hj

theorem ctor_spec_witness :
    Matrix.FitsSize 2 3 ∧ (1 < 2 ∧ 0 < 3) ∧ (Matrix.ctorFillSized 2 3 5).getChecked 1 0 = some 5 :=
  ⟨by decide, ⟨by decide, by decide⟩,
    ((ctor_spec 2 3 5).2.2.2.2.1 (by decide)).2.2.2 1 0 (by decide) (by decide)⟩

/-! ## Scalar division -/

/-- C13: `M.transpose()` returns a matrix of shape `C x R` with
`result(c, r) == M(r, c)` for all `r < R` and `c < C`, and the call leaves `M`
itself as it was. -/
theorem transpose_spec (M : Matrix) :
    M.transpose.rows_ = M.cols_ ∧ M.transpose.cols_ = M.rows_ ∧
    (∀ r c, r < M.rows_ → c < M.cols_ → M.transpose.get c r = M.get r c) ∧
    (Matrix.transposeCall M).result = .ok M.transpose ∧
    (Matrix.transposeCall M).self = M := by
  obtain ⟨-, hr, hc, hget⟩ := Matrix.transpose_result M
  exact ⟨hr, hc, hget, rfl, rfl⟩

theorem transpose_spec_witness :
    (1 < (Matrix.mk 2 3 [1, 2, 3, 4, 5, 6]).rows_ ∧ 2 < (Matrix.mk 2 3 [1, 2, 3, 4, 5, 6]).cols_) ∧
    (Matrix.mk 2 3 [1, 2, 3, 4, 5, 6]).transpose.get 2 1
      = (Matrix.mk 2 3 [1, 2, 3, 4, 5, 6]).get 1 2 :=
  ⟨⟨by decide, by decide⟩,
    (transpose_spec ⟨2, 3, [1, 2, 3, 4, 5, 6]⟩).2.2.1 1 2 (by decide) (by decide)⟩

/-- C19: transpose is an involution: `M.transpose().transpose()` has the shape
of `M` and the element of `M` in every cell, also for shapes with a zero
dimension; for a well-formed `M` it is `M` itself. -/
theorem transpose_involution (M : Matrix) :
    M.transpose.transpose.rows_ = M.rows_ ∧ M.transpose.transpose.cols_ = M.cols_ ∧
    (∀ r c, r < M.rows_ → c < M.cols_ → M.transpose.transpose.get r c = M.get r c) ∧
    (M.WF → M.transpose.transpose = M) := by
  obtain ⟨-, hr, hc, hget⟩ := Matrix.transpose_result M
  obtain ⟨hW', hr', hc', hget'⟩ := Matrix.transpose_result M.transpose
  have hcells : ∀ r c, r < M.rows_ → c < M.cols_ →
      M.transpose.transpose.get r c = M.get r c := by
    intro r c hr₀ hc₀
    rw [hget' c r (by rw [hr]; exact hc₀) (by rw [hc]; exact hr₀)]
    exact hget r c hr₀ hc₀
  refine ⟨hr'.trans hc, hc'.trans hr, hcells, ?_⟩
  intro hW
  apply Matrix.ext_get hW' hW (hr'.trans hc) (hc'.trans hr)
  intro i j hi hj
  rw [hr', hc] at hi
  rw [hc', hr] at hj
  exact hcells i j hi hj

theorem transpose_involution_witness :
    ((Matrix.mk 2 3 [1, 2, 3, 4, 5, 6]).WF ∧
      (Matrix.mk 2 3 [1, 2, 3, 4, 5, 6]).transpose.transpose = ⟨2, 3, [1, 2, 3, 4, 5, 6]⟩) ∧
    ((Matrix.mk 0 3 []).WF ∧ (Matrix.mk 0 3 []).transpose.transpose = ⟨0, 3, []⟩) :=
  ⟨⟨by decide, (transpose_involution ⟨2, 3, [1, 2, 3, 4, 5, 6]⟩).2.2.2 (by decide)⟩,
    ⟨by decide, (transpose_involution ⟨0, 3, []⟩).2.2.2 (by decide)⟩⟩

/-! ## Setters and resize -/

/-- C17: the single-dimension setters are the combined resize with the other
dimension held: `M.rows(n)` gives the same matrix as `M.resize(n, C)` and
`M.cols(n)` the same matrix as `M.resize(R, n)`, and each is a no-op when the
dimension is unchanged. -/
theorem setters_eq_resize (M : Matrix) (n : Nat) :
    M.setRows n = M.resize n M.cols_ ∧
    M.setCols n = M.resize M.rows_ n ∧
    (n = M.rows_ → M.setRows n = M ∧ M.resize n M.cols_ = M) ∧
    (n = M.cols_ → M.setCols n = M ∧ M.resize M.rows_ n = M) := by
  refine ⟨Matrix.setRows_eq_resize M n, Matrix.setCols_eq_resize M n, ?_, ?_⟩
  · intro hn
    have h := Matrix.resize_noop M n M.cols_ ⟨rfl, hn.symm⟩
    exact ⟨(Matrix.setRows_eq_resize M n).trans h, h⟩
  · intro hn
    have h := Matrix.resize_noop M M.rows_ n ⟨hn.symm, rfl⟩
    exact ⟨(Matrix.setCols_eq_resize M n).trans h, h⟩

theorem setters_eq_resize_witness :
    (2 = (Matrix.mk 2 2 [1, 2, 3, 4]).rows_ ∧
      ((Matrix.mk 2 2 [1, 2, 3, 4]).setRows 2 = ⟨2, 2, [1, 2, 3, 4]⟩ ∧
        (Matrix.mk 2 2 [1, 2, 3, 4]).resize 2 (Matrix.mk 2 2 [1, 2, 3, 4]).cols_
          = ⟨2, 2, [1, 2, 3, 4]⟩)) ∧
    (2 = (Matrix.mk 2 2 [1, 2, 3, 4]).cols_ ∧
      ((Matrix.mk 2 2 [1, 2, 3, 4]).setCols 2 = ⟨2, 2, [1, 2, 3, 4]⟩ ∧
        (Matrix.mk 2 2 [1, 2, 3, 4]).resize (Matrix.mk 2 2 [1, 2, 3, 4]).rows_ 2
          = ⟨2, 2, [1, 2, 3, 4]⟩)) :=
  ⟨⟨rfl, (setters_eq_resize ⟨2, 2, [1, 2, 3, 4]⟩ 2).2.2.1 rfl⟩,
    ⟨rfl, (setters_eq_resize ⟨2, 2, [1, 2, 3, 4]⟩ 2).2.2.2 rfl⟩⟩

/-- C14: failure atomicity: whenever `at`, `add(matrix)`, `sub(matrix)`,
`mul(matrix)`, `div(scalar)`, `to_identity` or `equal_to` fails, the receiver's
rows, cols and every element are what they were before the call; each of the
calls run as statements fails exactly when the member function does. -/
theorem failure_atomicity (M B : Matrix) (r c : Nat) (k : Int) (e : MatrixError) :
    ((Matrix.atCall r c M).result = .error e → (Matrix.atCall r c M).self = M) ∧
    ((Matrix.equal_toCall B M).result = .error e → (Matrix.equal_toCall B M).self = M) ∧
    ((Matrix.addCall B M).result = .error e → (Matrix.addCall B M).self = M) ∧
    ((Matrix.subCall B M).result = .error e → (Matrix.subCall B M).self = M) ∧
    ((Matrix.mulCall B M).result = .error e → (Matrix.mulCall B M).self = M) ∧
    ((Matrix.divCall k M).result = .error e → (Matrix.divCall k M).self = M) ∧
    ((Matrix.to_identityCall M).result = .error e → (Matrix.to_identityCall M).self = M) ∧
    ((Matrix.atCall r c M).result = M.at r c) ∧
    ((Matrix.equal_toCall B M).result = M.equal_to B) ∧
    ((Matrix.addCall B M).result = .error e ↔ M.add B = .error e) ∧
    ((Matrix.subCall B M).result = .error e ↔ M.sub B = .error e) ∧
    ((Matrix.mulCall B M).result = .error e ↔ M.mul B = .error e) ∧
    ((Matrix.divCall k M).result = .error e ↔ M.div k = .error e) ∧
    ((Matrix.to_identityCall M).result = .error e ↔ M.to_identity = .error e) := by
  refine ⟨fun _ => rfl, fun _ => rfl,
    Matrix.guard_write_atomic _ _ _ _ M, Matrix.guard_write_atomic _ _ _ _ M,
    Matrix.guard_write_atomic _ _ _ _ M, Matrix.guard_write_atomic _ _ _ _ M,
    Matrix.guard_write_atomic _ _ _ _ M, rfl, rfl, ?_, ?_, ?_, ?_, ?_⟩
  · unfold Matrix.addCall Matrix.add
    rw [Matrix.guard_write_run]
    by_cases h : B.rows ≠ M.rows_ ∨ B.cols ≠ M.cols_ <;> simp [h]
  · unfold Matrix.subCall Matrix.sub
    rw [Matrix.guard_write_run]
    by_cases h : B.rows ≠ M.rows_ ∨ B.cols ≠ M.cols_ <;> simp [h]
  · unfold Matrix.mulCall Matrix.mul
    rw [Matrix.guard_write_run]
    by_cases h : M.cols_ ≠ B.rows <;> simp [h]
  · unfold Matrix.divCall Matrix.div
    rw [Matrix.guard_write_run]
    by_cases h : k = 0 <;> simp [h]
  · unfold Matrix.to_identityCall Matrix.to_identity
    rw [Matrix.guard_write_run]
    by_cases h : M.rows_ ≠ M.cols_ <;> simp [h]

theorem failure_atomicity_witness :
    ((Matrix.mulCall ⟨2, 2, [5, 6, 7, 8]⟩ ⟨1, 3, [1, 2, 3]⟩).result
        = .error .DimensionMismatch ∧
      (Matrix.mulCall ⟨2, 2, [5, 6, 7, 8]⟩ ⟨1, 3, [1, 2, 3]⟩).self = ⟨1, 3, [1, 2, 3]⟩) ∧
    ((Matrix.divCall 0 ⟨1, 3, [1, 2, 3]⟩).result = .error .DivideByZero ∧
      (Matrix.divCall 0 ⟨1, 3, [1, 2, 3]⟩).self = ⟨1, 3, [1, 2, 3]⟩) ∧
    ((Matrix.to_identityCall ⟨1, 3, [1, 2, 3]⟩).result = .error .NotSquare ∧
      (Matrix.to_identityCall ⟨1, 3, [1, 2, 3]⟩).self = ⟨1, 3, [1, 2, 3]⟩) :=
  ⟨⟨rfl, (failure_atomicity ⟨1, 3, [1, 2, 3]⟩ ⟨2, 2, [5, 6, 7, 8]⟩ 0 0 0
      .DimensionMismatch).2.2.2.2.1 rfl⟩,
    ⟨rfl, (failure_atomicity ⟨1, 3, [1, 2, 3]⟩ ⟨2, 2, [5, 6, 7, 8]⟩ 0 0 0
      .DivideByZero).2.2.2.2.2.1 rfl⟩,
    ⟨rfl, (failure_atomicity ⟨1, 3, [1, 2, 3]⟩ ⟨2, 2, [5, 6, 7, 8]⟩ 0 0 0
      .NotSquare).2.2.2.2.2.2.1 rfl⟩⟩

/-! ## The representation invariant -/

/-- C15 as stated fails for a constructed matrix whose element count does not fit
`size_type`: `Matrix(4294967296, 4294967296)` has `rows * cols`
`= 18446744073709551616` and a buffer of 0 elements. -/
theorem wf_wrap_example :
    (Matrix.ctorSized 4294967296 4294967296).rows_ * (Matrix.ctorSized 4294967296 4294967296).cols_
      = 18446744073709551616 ∧
    (Matrix.ctorSized 4294967296 4294967296).data_.length = 0 ∧
    ¬ (Matrix.ctorSized 4294967296 4294967296).WF := by
  refine ⟨rfl, rfl, ?_⟩
  intro h
  have h' : (0 : Nat) = 4294967296 * 4294967296 := h
  exact absurd h' (by decide)

/-- C15 (amended): for sizes whose element count `rows * cols` fits `size_type`,
the buffer length equals `rows * cols` for every constructed matrix (default,
sized, filled, copied, identity) and is preserved by move construction and move
assignment (source and target), `rows(n)`, `cols(n)`, `resize`, `clear`, scalar
and matrix add/sub/mul/div, `zero`, `fill`, `to_identity`, `transpose` and
`convert_to`. -/
theorem wf_preserved (M B : Matrix) (r c n : Nat) (f k : Int) (conv : Int → Int) :
    Matrix.empty.WF ∧
    (Matrix.FitsSize r c →
      (Matrix.ctorSized r c).WF ∧ (Matrix.ctorFillSized r c f).WF ∧
      (∀ I, Matrix.identityChecked r c = some (.ok I) → I.WF)) ∧
    (M.WF → Matrix.FitsSize M.rows_ M.cols_ →
      (Matrix.ctorCopySized M).WF ∧ (Matrix.convert_toSized conv M).WF ∧
      (∃ T, M.transposeChecked = some T ∧ T.WF) ∧
      (∀ I, M.to_identityChecked = some (.ok I) → I.WF) ∧
      (Matrix.FitsSize n M.cols_ → ∃ M₁, M.setRowsChecked n = some M₁ ∧ M₁.WF) ∧
      (Matrix.FitsSize M.rows_ n → ∃ M₁, M.setColsChecked n = some M₁ ∧ M₁.WF) ∧
      (Matrix.FitsSize r c → ∃ M₁, M.resizeChecked r c = some M₁ ∧ M₁.WF)) ∧
    (M.WF →
      (Matrix.ctorMove M).1.WF ∧ (Matrix.ctorMove M).2.WF ∧ M.clear.WF ∧
      (M.addNumber k).WF ∧ (M.subNumber k).WF ∧ (M.mulNumber k).WF ∧
      (∀ D, M.div k = .ok D → D.WF) ∧ M.zero.WF ∧ (M.fill f).WF) ∧
    (M.WF → B.WF →
      (Matrix.moveAssign M B).1.WF ∧ (Matrix.moveAssign M B).2.WF ∧
      (∀ S, M.add B = .ok S → S.WF) ∧ (∀ D, M.sub B = .ok D → D.WF)) ∧
    (M.WF → B.WF → Matrix.FitsSize M.rows_ M.cols_ → Matrix.FitsSize B.rows_ B.cols_ →
      Matrix.FitsSize M.rows_ B.cols_ →
      ∃ R, M.mulChecked B = some R ∧ ∀ P, R = .ok P → P.WF) := by
  have hident : ∀ N : Matrix, N.WF → ∀ I, N.to_identity = .ok I → I.WF := by
    intro N hN I hI
    by_cases hsq : N.rows_ = N.cols_
    · rw [Matrix.to_identity_ok N hsq] at hI
      injection hI with hI
      rw [← hI]
      exact (Matrix.writeLoop_spec hN N.rows_ N.cols_ (Nat.le_refl _) (Nat.le_refl _)
        (fun row col => if row = col then 1 else 0)).1
    · unfold Matrix.to_identity at hI
      rw [if_pos hsq] at hI
      cases hI
  refine ⟨rfl, ?_, ?_, ?_, ?_, ?_⟩
  · intro hf
    refine ⟨by rw [Matrix.ctorSized_eq hf]; exact Matrix.ctor_WF r c, ?_, ?_⟩
    · unfold Matrix.ctorFillSized
      rw [Matrix.ctorSized_eq hf]
      by_cases hf₀ : f = 0
      · simpa [hf₀] using Matrix.ctor_WF r c
      · simpa [hf₀, Matrix.fill] using Matrix.generate_WF (Matrix.ctor_WF r c) _
    · intro I hI
      rw [Matrix.identityChecked_eq hf] at hI
      injection hI with hI
      exact hident (Matrix.ctor r c) (Matrix.ctor_WF r c) I hI
  · intro hM hf
    refine ⟨?_, ?_, ⟨_, Matrix.transposeChecked_eq hM hf, (Matrix.transpose_result M).1⟩,
      ?_, ?_, ?_, ?_⟩
    · unfold Matrix.ctorCopySized
      rw [Matrix.ctorSized_eq hf]
      have := Matrix.ctorCopy_eq hM
      unfold Matrix.ctorCopy at this
      rw [this]
      exact hM
    · unfold Matrix.convert_toSized
      rw [Matrix.ctorSized_eq hf]
      unfold Matrix.WF at *
      simp [Matrix.ctor, Matrix.stdCopy, hM]
    · intro I hI
      rw [Matrix.to_identityChecked_eq hM hf] at hI
      injection hI with hI
      exact hident M hM I hI
    · intro hn
      refine ⟨_, ?_, (Matrix.resize_result M n M.cols_).2.2.1 hM⟩
      rw [Matrix.setRowsChecked_eq_resizeChecked]
      exact Matrix.resizeChecked_eq hM hf n M.cols_ hn
    · intro hn
      refine ⟨_, ?_, (Matrix.resize_result M M.rows_ n).2.2.1 hM⟩
      rw [Matrix.setColsChecked_eq_resizeChecked]
      exact Matrix.resizeChecked_eq hM hf M.rows_ n hn
    · intro hrc
      exact ⟨_, Matrix.resizeChecked_eq hM hf r c hrc, (Matrix.resize_result M r c).2.2.1 hM⟩
  · intro hM
    refine ⟨hM, rfl, rfl, Matrix.transform₁_WF hM _, Matrix.transform₁_WF hM _,
      Matrix.transform₁_WF hM _, ?_, Matrix.generate_WF hM _, Matrix.generate_WF hM _⟩
    intro D hD
    unfold Matrix.div at hD
    by_cases hk : k = 0
    · rw [if_pos hk] at hD
      cases hD
    · rw [if_neg hk] at hD
      injection hD with hD
      rw [← hD]
      exact Matrix.transform₁_WF hM _
  · intro hM hB
    refine ⟨hB, hM, ?_, ?_⟩
    · intro S hS
      unfold Matrix.add at hS
      by_cases h : B.rows ≠ M.rows_ ∨ B.cols ≠ M.cols_
      · rw [if_pos h] at hS
        cases hS
      · rw [if_neg h] at hS
        injection hS with hS
        rw [← hS]
        simp only [Matrix.rows, Matrix.cols, not_or, not_not] at h
        exact Matrix.transform₂_WF hM hB h.1.symm h.2.symm _
    · intro D hD
      unfold Matrix.sub at hD
      by_cases h : B.rows ≠ M.rows_ ∨ B.cols ≠ M.cols_
      · rw [if_pos h] at hD
        cases hD
      · rw [if_neg h] at hD
        injection hD with hD
        rw [← hD]
        simp only [Matrix.rows, Matrix.cols, not_or, not_not] at h
        exact Matrix.transform₂_WF hM hB h.1.symm h.2.symm _
  · intro hM hB hfM hfB hfP
    refine ⟨_, Matrix.mulChecked_eq hM hB hfM hfB hfP, ?_⟩
    intro P hP
    by_cases h : M.cols_ = B.rows_
    · obtain ⟨P₁, hP₁, hW, -⟩ := Matrix.mul_result M B h
      rw [hP₁] at hP
      injection hP with hP
      rw [← hP]
      exact hW
    · unfold Matrix.mul at hP
      rw [if_pos (by simpa [Matrix.rows] using h)] at hP
      cases hP

theorem wf_preserved_witness :
    ((Matrix.mk 2 2 [1, 2, 3, 4]).WF ∧ Matrix.FitsSize 2 2 ∧ Matrix.FitsSize 3 1) ∧
    (∃ M₁, (Matrix.mk 2 2 [1, 2, 3, 4]).resizeChecked 3 1 = some M₁ ∧ M₁.WF) ∧
    (∃ T, (Matrix.mk 2 2 [1, 2, 3, 4]).transposeChecked = some T ∧ T.WF) :=
  ⟨⟨by decide, by decide, by decide⟩,
    ((wf_preserved ⟨2, 2, [1, 2, 3, 4]⟩ ⟨2, 2, [5, 6, 7, 8]⟩ 3 1 0 0 2 id).2.2.1
      (by decide) (by decide)).2.2.2.2.2.2 (by decide),
    ((wf_preserved ⟨2, 2, [1, 2, 3, 4]⟩ ⟨2, 2, [5, 6, 7, 8]⟩ 3 1 0 0 2 id).2.2.1
      (by decide) (by decide)).2.2.1⟩

/-! ## Flattening -/

/-- C16: for a matrix `M` of shape `R x C`, `convert_to_vector()` returns a
sequence of length `R * C` whose entry at index `r * C + c` is `M(r, c)`, and
`convert_to_matrix_vector()` returns `R` sequences of length `C` whose entry
`[r][c]` is `M(r, c)`; concatenating the nested rows in order gives the flat
sequence. -/
theorem convert_to_vector_spec (M : Matrix) (hW : M.WF) :
    M.convert_to_vector.length = M.rows_ * M.cols_ ∧
    (∀ r c, r < M.rows_ → c < M.cols_ →
      M.convert_to_vector[r * M.cols_ + c]? = some (M.get r c)) ∧
    M.convert_to_matrix_vector.length = M.rows_ ∧
    (∀ r, r < M.rows_ → ∃ row, M.convert_to_matrix_vector[r]? = some row ∧
      row.length = M.cols_ ∧ ∀ c, c < M.cols_ → row[c]? = some (M.get r c)) ∧
    M.convert_to_matrix_vector.flatten = M.convert_to_vector := by
  have hflat : M.convert_to_vector = M.data_ := by
    unfold Matrix.convert_to_vector
    exact Matrix.stdCopy_replicate M.data_ _ hW
  obtain ⟨hlen, hrow, hcell⟩ := Matrix.convert_to_matrix_vector_cells M
  refine ⟨by rw [hflat]; exact hW, ?_, hlen, ?_, ?_⟩
  · intro r c hr hc
    have hl : r * M.cols_ + c < M.data_.length := by rw [hW]; exact offset_lt hr hc
    rw [hflat, List.getElem?_eq_getElem hl]
    simp [Matrix.get, List.getElem?_eq_getElem hl]
  · intro r hr
    have hr' : r < M.convert_to_matrix_vector.length := by rw [hlen]; exact hr
    have hrl := hrow r hr
    rw [List.getD_eq_getElem _ _ hr'] at hrl
    refine ⟨_, List.getElem?_eq_getElem hr', hrl, ?_⟩
    intro c hc
    have hc' : c < (M.convert_to_matrix_vector[r]).length := by rw [hrl]; exact hc
    have := hcell r c hr hc
    rw [List.getD_eq_getElem _ _ hr', List.getD_eq_getElem _ _ hc'] at this
    rw [List.getElem?_eq_getElem hc', this]
  · rw [Matrix.convert_to_matrix_vector_eq, hflat]
    exact Matrix.flatten_rows M.cols_ M.rows_ M.data_ hW

theorem convert_to_vector_spec_witness :
    (Matrix.mk 2 3 [1, 2, 3, 4, 5, 6]).WF ∧
    (Matrix.mk 2 3 [1, 2, 3, 4, 5, 6]).convert_to_vector = [1, 2, 3, 4, 5, 6] ∧
    (Matrix.mk 2 3 [1, 2, 3, 4, 5, 6]).convert_to_matrix_vector = [[1, 2, 3], [4, 5, 6]] ∧
    (Matrix.mk 2 3 [1, 2, 3, 4, 5, 6]).convert_to_matrix_vector.flatten
      = (Matrix.mk 2 3 [1, 2, 3, 4, 5, 6]).convert_to_vector :=
  ⟨by decide, rfl, rfl,
    (convert_to_vector_spec ⟨2, 3, [1, 2, 3, 4, 5, 6]⟩ (by decide)).2.2.2.2⟩

/-! ## Row-major offsets -/

/-- C21 as stated fails for shapes whose element count does not fit
`size_type`: resizing the 2x2 matrix `[[1,2],[3,4]]` to `8589934592 x 2147483648`
allocates `rows * cols` wrapped to 0 elements, and the first assignment of the
copy loop, `tmp(0, 0) = (*this)(0, 0)`, is outside that buffer. -/
theorem resize_access_out_of_bounds :
    (Matrix.mk 2 2 [1, 2, 3, 4]).WF ∧
    (Matrix.ctorSized 8589934592 2147483648).data_ = [] ∧
    Matrix.setChecked (Matrix.ctorSized 8589934592 2147483648) 0 0 1 = none ∧
    Matrix.resizeChecked ⟨2, 2, [1, 2, 3, 4]⟩ 8589934592 2147483648 = none := by
  refine ⟨by decide, rfl, rfl, rfl⟩

/-- C21 (amended): row-major offsets are in bounds and injective: for every shape
`rows x cols` and all `r < rows`, `c < cols`, the offset `r * cols + c` is below
`rows * cols`, and two valid index pairs with the same offset are the same pair.
Consequently, for matrices and target shapes whose element count `rows * cols`
fits `size_type`, every unchecked access made by the loops of `rows`, `cols`,
`resize`, `mul`, `transpose` and `to_identity` is inside the buffer it addresses
(the old buffer read with the old column count, the new buffer written with the
new one): run as the machine runs them, with every access checked, the loops
complete; and writing one cell changes no other cell. -/
theorem offsets_in_bounds (rows cols : Nat) (M B : Matrix) (r c n : Nat) :
    (∀ i j, i < rows → j < cols → i * cols + j < rows * cols) ∧
    (∀ i j i₁ j₁, i < rows → j < cols → i₁ < rows → j₁ < cols →
      i * cols + j = i₁ * cols + j₁ → i = i₁ ∧ j = j₁) ∧
    (Matrix.FitsSize rows cols → ∀ i j, i < rows → j < cols →
      Matrix.sizeWrap (i * cols + j) = i * cols + j) ∧
    (M.WF → Matrix.FitsSize M.rows_ M.cols_ → ∀ i j, i < M.rows_ → j < M.cols_ →
      M.getChecked i j = some (M.get i j) ∧
      ∀ v, M.setChecked i j v = some (M.set i j v)) ∧
    (M.WF → Matrix.FitsSize M.rows_ M.cols_ →
      (Matrix.FitsSize n M.cols_ → M.setRowsChecked n = some (M.setRows n)) ∧
      (Matrix.FitsSize M.rows_ n → M.setColsChecked n = some (M.setCols n)) ∧
      (Matrix.FitsSize r c → M.resizeChecked r c = some (M.resize r c)) ∧
      M.transposeChecked = some M.transpose ∧
      M.to_identityChecked = some M.to_identity) ∧
    (M.WF → B.WF → Matrix.FitsSize M.rows_ M.cols_ → Matrix.FitsSize B.rows_ B.cols_ →
      Matrix.FitsSize M.rows_ B.cols_ → M.mulChecked B = some (M.mul B)) ∧
    (M.WF → ∀ i j i₁ j₁ v, i < M.rows_ → j < M.cols_ → i₁ < M.rows_ → j₁ < M.cols_ →
      (M.set i j v).get i j = v ∧
      (¬ (i₁ = i ∧ j₁ = j) → (M.set i j v).get i₁ j₁ = M.get i₁ j₁)) := by
  refine ⟨fun i j hi hj => offset_lt hi hj,
    fun i j i₁ j₁ _ hj _ hj₁ h => offset_inj hj hj₁ h,
    fun hf i j hi hj => Matrix.sizeWrap_offset hf hi hj, ?_, ?_, ?_, ?_⟩
  · intro hW hf i j hi hj
    exact ⟨Matrix.getChecked_eq hW hf hi hj, fun v => Matrix.setChecked_eq hW hf hi hj v⟩
  · intro hW hf
    refine ⟨?_, ?_, fun hrc => Matrix.resizeChecked_eq hW hf r c hrc,
      Matrix.transposeChecked_eq hW hf, Matrix.to_identityChecked_eq hW hf⟩
    · intro hn
      rw [Matrix.setRowsChecked_eq_resizeChecked, Matrix.setRows_eq_resize]
      exact Matrix.resizeChecked_eq hW hf n M.cols_ hn
    · intro hn
      rw [Matrix.setColsChecked_eq_resizeChecked, Matrix.setCols_eq_resize]
      exact Matrix.resizeChecked_eq hW hf M.rows_ n hn
  · intro hW hB hfM hfB hfP
    exact Matrix.mulChecked_eq hW hB hfM hfB hfP
  · intro hW i j i₁ j₁ v hi hj _ hj₁
    exact ⟨Matrix.get_set_self hW hi hj v, fun hne => Matrix.get_set_of_ne hj hj₁ hne v⟩

theorem offsets_in_bounds_witness :
    ((1 < 2 ∧ 2 < 3) ∧ 1 * 3 + 2 < 2 * 3) ∧
    (((Matrix.mk 2 3 [1, 2, 3, 4, 5, 6]).WF ∧ (Matrix.mk 3 1 [7, 8, 9]).WF ∧
        Matrix.FitsSize 2 3 ∧ Matrix.FitsSize 3 1 ∧ Matrix.FitsSize 2 1) ∧
      (Matrix.mk 2 3 [1, 2, 3, 4, 5, 6]).mulChecked (Matrix.mk 3 1 [7, 8, 9])
        = some ((Matrix.mk 2 3 [1, 2, 3, 4, 5, 6]).mul (Matrix.mk 3 1 [7, 8, 9]))) ∧
    ((Matrix.mk 2 3 [1, 2, 3, 4, 5, 6]).WF ∧ Matrix.FitsSize 2 3 ∧ Matrix.FitsSize 3 2 ∧
      (Matrix.mk 2 3 [1, 2, 3, 4, 5, 6]).resizeChecked 3 2
        = some ((Matrix.mk 2 3 [1, 2, 3, 4, 5, 6]).resize 3 2) ∧
      (Matrix.mk 2 3 [1, 2, 3, 4, 5, 6]).transposeChecked
        = some (Matrix.mk 2 3 [1, 2, 3, 4, 5, 6]).transpose) :=
  ⟨⟨⟨by decide, by decide⟩,
      (offsets_in_bounds 2 3 ⟨2, 3, [1, 2, 3, 4, 5, 6]⟩ ⟨3, 1, [7, 8, 9]⟩ 3 2 4).1 1 2
        (by decide) (by decide)⟩,
    ⟨⟨by decide, by decide, by decide, by decide, by decide⟩,
      (offsets_in_bounds 2 3 ⟨2, 3, [1, 2, 3, 4, 5, 6]⟩ ⟨3, 1, [7, 8, 9]⟩ 3 2 4).2.2.2.2.2.1
        (by decide) (by decide) (by decide) (by decide) (by decide)⟩,
    ⟨by decide, by decide, by decide,
      ((offsets_in_bounds 2 3 ⟨2, 3, [1, 2, 3, 4, 5, 6]⟩ ⟨3, 1, [7, 8, 9]⟩ 3 2 4).2.2.2.2.1
        (by decide) (by decide)).2.2.1 (by decide),
      ((offsets_in_bounds 2 3 ⟨2, 3, [1, 2, 3, 4, 5, 6]⟩ ⟨3, 1, [7, 8, 9]⟩ 3 2 4).2.2.2.2.1
        (by decide) (by decide)).2.2.2.1⟩⟩

end ng
